import Mathlib

/-!
Shallow embedding of the heterogeneous-CPU cycle-stepped scheduler
(`core_simulator.py` and `cycle_analysis.py`).  Python floats are modelled
as exact rationals (`ℚ`); the mutable object graph is modelled by value
passing, which is observationally faithful here because every task is owned
by exactly one queue or core at a time and the backlog list `tasks` is read
only once, by `assign_tasks`, before any mutation happens.
-/

namespace CPUSim

/-- `Task` from `core_simulator.py`: name, fixed difficulty, mutable
remaining work. -/
structure Task where
  name : String
  difficulty : ℚ
  remaining : ℚ
deriving DecidableEq, Repr

/-- `Task.__init__`: `remaining` starts equal to `difficulty`. -/
def Task.init (name : String) (difficulty : ℚ) : Task :=
  { name := name, difficulty := difficulty, remaining := difficulty }

/-- `Core` from `core_simulator.py`. -/
structure Core where
  name : String
  core_type : String
  speed : ℚ
  energy_multiplier : ℚ
  task : Option Task
  energy_used : ℚ
deriving DecidableEq, Repr

/-- `Core.__init__`: starts idle with zero energy. -/
def Core.init (name core_type : String) (speed_multiplier energy_multiplier : ℚ) : Core :=
  { name := name, core_type := core_type, speed := speed_multiplier,
    energy_multiplier := energy_multiplier, task := none, energy_used := 0 }

/-- `Core.assign_task`. -/
def Core.assign_task (c : Core) (t : Task) : Core :=
  { c with task := some t }

/-- `Core.is_idle`. -/
def Core.is_idle (c : Core) : Bool :=
  c.task.isNone

/-- `Core.process`: returns the updated core and the completed task, if any. -/
def Core.process (c : Core) : Core × Option Task :=
  match c.task with
  | none => (c, none)
  | some t =>
    let work_done := min t.remaining c.speed
    let t' : Task := { t with remaining := t.remaining - work_done }
    let c' : Core := { c with energy_used := c.energy_used + work_done * c.energy_multiplier }
    if t'.remaining ≤ 0 then
      ({ c' with task := none }, some t')
    else
      ({ c' with task := some t' }, none)

/-- `CPUSimulator` state.  `total_energy` is the derived field recomputed at
the end of a run. -/
structure CPUSimulator where
  tasks : List Task
  threshold : ℚ
  cycle : Nat
  total_energy : ℚ
  perf_cores : List Core
  eff_cores : List Core
  wait_queue_perf : List Task
  wait_queue_eff : List Task
  completed_tasks : List Task
deriving DecidableEq, Repr

/-- The core pools built in `CPUSimulator.__init__`. -/
def mkCores (base core_type : String) (n : Nat) (speed energy : ℚ) : List Core :=
  (List.range n).map (fun i => Core.init (base ++ toString (i + 1)) core_type speed energy)

/-- `CPUSimulator.__init__` (defaults in the source:
`perf_speed=1.5, perf_energy=1.33, eff_speed=1.0, eff_energy=1.0, threshold=2`). -/
def CPUSimulator.init (tasks : List (String × ℚ)) (num_perf num_eff : Nat)
    (perf_speed perf_energy eff_speed eff_energy threshold : ℚ) : CPUSimulator :=
  { tasks := tasks.map (fun p => Task.init p.1 p.2)
    threshold := threshold
    cycle := 0
    total_energy := 0
    perf_cores := mkCores "P" "P" num_perf perf_speed perf_energy
    eff_cores := mkCores "E" "E" num_eff eff_speed eff_energy
    wait_queue_perf := []
    wait_queue_eff := []
    completed_tasks := [] }

/-- The loop body of `CPUSimulator.assign_tasks`: appends each task to the
performance queue iff `difficulty > threshold`, else to the efficiency
queue, in backlog order. -/
def partitionLoop (threshold : ℚ) : List Task → List Task × List Task → List Task × List Task
  | [], qs => qs
  | t :: ts, qs =>
    if threshold < t.difficulty then
      partitionLoop threshold ts (qs.1 ++ [t], qs.2)
    else
      partitionLoop threshold ts (qs.1, qs.2 ++ [t])

/-- `CPUSimulator.assign_tasks` (does not clear `tasks`). -/
def CPUSimulator.assign_tasks (s : CPUSimulator) : CPUSimulator :=
  let qs := partitionLoop s.threshold s.tasks (s.wait_queue_perf, s.wait_queue_eff)
  { s with wait_queue_perf := qs.1, wait_queue_eff := qs.2 }

/-- One pass of `CPUSimulator.assign_to_cores` over a core pool: each idle
core pops the front of the queue while the queue is non-empty. -/
def assignIdle : List Core → List Task → List Core × List Task
  | [], q => ([], q)
  | c :: cs, [] =>
    let r := assignIdle cs []
    (c :: r.1, r.2)
  | c :: cs, t :: q =>
    if c.is_idle then
      let r := assignIdle cs q
      (c.assign_task t :: r.1, r.2)
    else
      let r := assignIdle cs (t :: q)
      (c :: r.1, r.2)

/-- `CPUSimulator.assign_to_cores`: primary pass on each pool, then the two
fallback passes, each guarded by the *pool* being empty and the foreign
queue non-empty. -/
def CPUSimulator.assign_to_cores (s : CPUSimulator) : CPUSimulator :=
  let p1 := assignIdle s.perf_cores s.wait_queue_perf
  let e1 := assignIdle s.eff_cores s.wait_queue_eff
  let p2 :=
    if e1.1.isEmpty && !e1.2.isEmpty then assignIdle p1.1 e1.2 else (p1.1, e1.2)
  let e2 :=
    if p2.1.isEmpty && !p1.2.isEmpty then assignIdle e1.1 p1.2 else (e1.1, p1.2)
  { s with perf_cores := p2.1, eff_cores := e2.1,
           wait_queue_perf := e2.2, wait_queue_eff := p2.2 }

/-- Processing every core of a pool in order, collecting completed tasks in
that order. -/
def processAll : List Core → List Core × List Task
  | [] => ([], [])
  | c :: cs =>
    let r := c.process
    let rest := processAll cs
    (r.1 :: rest.1, r.2.toList ++ rest.2)

/-- `CPUSimulator.run_cycle`: bump the cycle counter, process perf cores
then eff cores, append completions in detection order. -/
def CPUSimulator.run_cycle (s : CPUSimulator) : CPUSimulator :=
  let p := processAll s.perf_cores
  let e := processAll s.eff_cores
  { s with cycle := s.cycle + 1,
           perf_cores := p.1, eff_cores := e.1,
           completed_tasks := s.completed_tasks ++ p.2 ++ e.2 }

/-- Sum of `energy_used` over a core pool. -/
def coresEnergy (cores : List Core) : ℚ :=
  (cores.map Core.energy_used).sum

/-- `sum(core.energy_used for core in self.perf_cores + self.eff_cores)`. -/
def CPUSimulator.energyOfCores (s : CPUSimulator) : ℚ :=
  coresEnergy s.perf_cores + coresEnergy s.eff_cores

/-- One iteration of the main simulation loop body:
`assign_to_cores(); run_cycle()`. -/
def simStep (s : CPUSimulator) : CPUSimulator :=
  s.assign_to_cores.run_cycle

/-- The `while len(completed_tasks) < total` loop of `run_simulation`,
with explicit fuel; `none` means the loop did not terminate within `fuel`
iterations. -/
def runSimLoop (total : Nat) : Nat → CPUSimulator → Option CPUSimulator
  | 0, s => if s.completed_tasks.length < total then none else some s
  | fuel + 1, s =>
    if s.completed_tasks.length < total then
      runSimLoop total fuel (simStep s)
    else
      some s

/-- `CPUSimulator.run_simulation` up to `fuel` loop iterations: partition
once, loop until all tasks complete, then recompute `total_energy`. -/
def CPUSimulator.run_simulation (fuel : Nat) (s : CPUSimulator) : Option CPUSimulator :=
  let s1 := s.assign_tasks
  let total := s1.wait_queue_perf.length + s1.wait_queue_eff.length
  match runSimLoop total fuel s1 with
  | none => none
  | some s2 => some { s2 with total_energy := s2.energyOfCores }

/-- The bounded `while` loop of `run_for_max_cycles`: runs while tasks
remain and `cycle < max_cycles`.  Each iteration increments `cycle` by one,
so `fuel = max_cycles` always suffices when starting from `cycle = 0`. -/
def boundedLoop (total max_cycles : Nat) : Nat → CPUSimulator → CPUSimulator
  | 0, s => s
  | fuel + 1, s =>
    if s.completed_tasks.length < total ∧ s.cycle < max_cycles then
      boundedLoop total max_cycles fuel (simStep s)
    else s

/-- The result record returned by `run_for_max_cycles`. -/
structure BoundedResult where
  cycles_used : Nat
  max_cycles : Nat
  tasks_completed : Nat
  total_tasks : Nat
  completion_rate : ℚ
  energy_used : ℚ
  fully_completed : Bool
deriving DecidableEq, Repr

/-- `CycleControlledSimulator.run_for_max_cycles`.  Returns `none` exactly
when the Python code raises `ZeroDivisionError`, i.e. when
`total_tasks = 0` and `completion_rate = len(completed)/total*100`
divides by zero. -/
def CPUSimulator.run_for_max_cycles (s : CPUSimulator) (max_cycles : Nat) :
    Option (CPUSimulator × BoundedResult) :=
  let s1 := s.assign_tasks
  let total := s1.wait_queue_perf.length + s1.wait_queue_eff.length
  let s2 := boundedLoop total max_cycles max_cycles s1
  let s3 := { s2 with total_energy := s2.energyOfCores }
  let remaining_tasks := total - s3.completed_tasks.length
  if total = 0 then none
  else
    some (s3,
      { cycles_used := s3.cycle
        max_cycles := max_cycles
        tasks_completed := s3.completed_tasks.length
        total_tasks := total
        completion_rate := (s3.completed_tasks.length : ℚ) / (total : ℚ) * 100
        energy_used := s3.total_energy
        fully_completed := remaining_tasks = 0 })

/-- Python `int(q)` on a rational: truncation toward zero. -/
def pyInt (q : ℚ) : ℤ :=
  if q < 0 then -((-q).floor) else q.floor

/-- `CycleControlledSimulator.estimate_remaining_cycles`.  Note the source
hardcodes the speeds `1.5` and `1.0` in `avg_speed`.  `none` models
`float('inf')`. -/
def CPUSimulator.estimate_remaining_cycles (s : CPUSimulator) : Option ℤ :=
  let remaining_work :=
    ((s.wait_queue_perf ++ s.wait_queue_eff).map Task.remaining).sum
      + (((s.perf_cores ++ s.eff_cores).filterMap Core.task).map Task.remaining).sum
  let total_cores := s.perf_cores.length + s.eff_cores.length
  if total_cores = 0 then none
  else
    let avg_speed :=
      ((s.perf_cores.length : ℚ) * (3 / 2) + (s.eff_cores.length : ℚ) * 1) / (total_cores : ℚ)
    some (pyInt (remaining_work / avg_speed) + 1)

/-- Modelled from the spec (for comparison with the code): the estimator
as the claim states it, using the *configured* per-type speeds instead of
the source's hardcoded `1.5` and `1.0`. -/
def estimateRemainingCyclesSpec (s : CPUSimulator) (perf_speed eff_speed : ℚ) : Option ℤ :=
  let remaining_work :=
    ((s.wait_queue_perf ++ s.wait_queue_eff).map Task.remaining).sum
      + (((s.perf_cores ++ s.eff_cores).filterMap Core.task).map Task.remaining).sum
  let total_cores := s.perf_cores.length + s.eff_cores.length
  if total_cores = 0 then none
  else
    let avg_speed :=
      ((s.perf_cores.length : ℚ) * perf_speed + (s.eff_cores.length : ℚ) * eff_speed)
        / (total_cores : ℚ)
    some (pyInt (remaining_work / avg_speed) + 1)

/-- The tasks currently attached to the cores of a pool, in pool order. -/
def coreTasks (cores : List Core) : List Task :=
  cores.filterMap Core.task

/-- Number of idle cores in a pool. -/
def idleCount (cores : List Core) : Nat :=
  (cores.filter Core.is_idle).length

/-- The tasks the cores of `cs'` received relative to `cs`: for each
position that was idle in `cs`, the task now attached there (if any). -/
def newlyAssigned (cs cs' : List Core) : List Task :=
  (cs.zip cs').filterMap (fun p => if p.1.task = none then p.2.task else none)

/-- Multiset of all tasks still in flight: on a core or in a wait queue. -/
def activeBag (s : CPUSimulator) : Multiset Task :=
  (coreTasks s.perf_cores : Multiset Task) + (coreTasks s.eff_cores : Multiset Task)
    + (s.wait_queue_perf : Multiset Task) + (s.wait_queue_eff : Multiset Task)

/-- The task bound invariant: `0 ≤ remaining ≤ difficulty`. -/
def TaskOK (t : Task) : Prop :=
  0 ≤ t.remaining ∧ t.remaining ≤ t.difficulty

/-- Every task of a list satisfies the bound invariant. -/
def TasksOK (l : List Task) : Prop :=
  ∀ t ∈ l, TaskOK t

/-- Every core of a pool has non-negative speed. -/
def SpeedOK (cs : List Core) : Prop :=
  ∀ c ∈ cs, 0 ≤ c.speed

/-- Every core of a pool has a non-negative energy multiplier. -/
def MultOK (cs : List Core) : Prop :=
  ∀ c ∈ cs, 0 ≤ c.energy_multiplier

/-- Full state invariant used for the reachability proofs. -/
def Inv (s : CPUSimulator) : Prop :=
  TasksOK s.wait_queue_perf ∧ TasksOK s.wait_queue_eff ∧
    TasksOK (coreTasks s.perf_cores) ∧ TasksOK (coreTasks s.eff_cores) ∧
    TasksOK s.completed_tasks ∧
    SpeedOK s.perf_cores ∧ SpeedOK s.eff_cores

/-- Queue/core affinity: the performance side holds only tasks with
`difficulty > threshold`, the efficiency side only the rest. -/
def Affinity (s : CPUSimulator) : Prop :=
  (∀ t ∈ s.wait_queue_perf, s.threshold < t.difficulty) ∧
    (∀ t ∈ s.wait_queue_eff, ¬ s.threshold < t.difficulty) ∧
    (∀ t ∈ coreTasks s.perf_cores, s.threshold < t.difficulty) ∧
    (∀ t ∈ coreTasks s.eff_cores, ¬ s.threshold < t.difficulty)

/-- The state reached after partitioning and `n` iterations of the main
loop body. -/
def reach (s : CPUSimulator) (n : Nat) : CPUSimulator :=
  simStep^[n] s.assign_tasks

/-! ### Lemmas about `Core.process` -/

theorem Core.process_none {c : Core} (h : c.task = none) : c.process = (c, none) := by
  simp [Core.process, h]

theorem Core.process_some {c : Core} {t : Task} (h : c.task = some t) :
    c.process =
      if t.remaining ≤ c.speed then
        ({ c with energy_used := c.energy_used + min t.remaining c.speed * c.energy_multiplier,
                  task := none },
         some { t with remaining := t.remaining - min t.remaining c.speed })
      else
        ({ c with energy_used := c.energy_used + min t.remaining c.speed * c.energy_multiplier,
                  task := some { t with remaining := t.remaining - min t.remaining c.speed } },
         none) := by
  have hcond : (t.remaining - min t.remaining c.speed ≤ 0) ↔ t.remaining ≤ c.speed := by
    rw [sub_nonpos, le_min_iff]
    simp
  simp only [Core.process, h]
  by_cases hle : t.remaining ≤ c.speed
  · rw [if_pos (hcond.mpr hle), if_pos hle]
  · rw [if_neg (fun hx => hle (hcond.mp hx)), if_neg hle]

theorem Core.process_fst_speed (c : Core) : c.process.1.speed = c.speed := by
  cases hc : c.task with
  | none => rw [Core.process_none hc]
  | some t => rw [Core.process_some hc]; split <;> rfl

theorem Core.process_fst_mult (c : Core) :
    c.process.1.energy_multiplier = c.energy_multiplier := by
  cases hc : c.task with
  | none => rw [Core.process_none hc]
  | some t => rw [Core.process_some hc]; split <;> rfl

theorem Core.process_energy_mono (c : Core) (hOK : ∀ t, c.task = some t → TaskOK t)
    (hs : 0 ≤ c.speed) (hm : 0 ≤ c.energy_multiplier) :
    c.energy_used ≤ c.process.1.energy_used := by
  cases hc : c.task with
  | none => rw [Core.process_none hc]
  | some t =>
    have h0 : 0 ≤ min t.remaining c.speed := le_min (hOK t hc).1 hs
    rw [Core.process_some hc]
    split <;> simp <;> exact mul_nonneg h0 hm

theorem Core.process_snd_remaining {c : Core} {t' : Task} (h : c.process.2 = some t') :
    t'.remaining = 0 := by
  cases hc : c.task with
  | none => rw [Core.process_none hc] at h; exact absurd h (by simp)
  | some t =>
    rw [Core.process_some hc] at h
    split at h
    · rename_i hle
      cases h
      simp [min_eq_left hle]
    · exact absurd h (by simp)

theorem Core.process_snd_mem {c : Core} {t' : Task} (h : c.process.2 = some t') :
    ∃ t, c.task = some t ∧ t'.difficulty = t.difficulty ∧
      t'.remaining = t.remaining - min t.remaining c.speed := by
  cases hc : c.task with
  | none => rw [Core.process_none hc] at h; exact absurd h (by simp)
  | some t =>
    rw [Core.process_some hc] at h
    split at h
    · cases h; exact ⟨t, rfl, rfl, rfl⟩
    · exact absurd h (by simp)

theorem Core.process_fst_task {c : Core} {t' : Task} (h : c.process.1.task = some t') :
    ∃ t, c.task = some t ∧ t'.difficulty = t.difficulty ∧
      t'.remaining = t.remaining - min t.remaining c.speed ∧ c.speed < t.remaining := by
  cases hc : c.task with
  | none => simp [Core.process_none hc, hc] at h
  | some t =>
    rw [Core.process_some hc] at h
    split at h
    · exact absurd h (by simp)
    · rename_i hle
      cases h
      exact ⟨t, rfl, rfl, rfl, lt_of_not_le hle⟩

theorem Core.process_taskOK_fst {c : Core} (hOK : ∀ t, c.task = some t → TaskOK t)
    (hs : 0 ≤ c.speed) {t' : Task} (h : c.process.1.task = some t') : TaskOK t' := by
  obtain ⟨t, hc, hd, hr, _⟩ := Core.process_fst_task h
  obtain ⟨h1, h2⟩ := hOK t hc
  constructor
  · rw [hr]
    exact sub_nonneg.mpr (min_le_left _ _)
  · rw [hr, hd]
    exact le_trans (sub_le_self _ (le_min h1 hs)) h2

theorem Core.process_taskOK_snd {c : Core} (hOK : ∀ t, c.task = some t → TaskOK t)
    {t' : Task} (h : c.process.2 = some t') : TaskOK t' := by
  obtain ⟨t, hc, hd, _⟩ := Core.process_snd_mem h
  obtain ⟨h1, h2⟩ := hOK t hc
  refine ⟨le_of_eq (Core.process_snd_remaining h).symm, ?_⟩
  rw [Core.process_snd_remaining h, hd]
  exact le_trans h1 h2

/-! ### Lemmas about `processAll` -/

theorem processAll_fst (cs : List Core) :
    (processAll cs).1 = cs.map (fun c => c.process.1) := by
  induction cs with
  | nil => rfl
  | cons c cs ih => simp [processAll, ih]

theorem processAll_snd (cs : List Core) :
    (processAll cs).2 = cs.filterMap (fun c => c.process.2) := by
  induction cs with
  | nil => rfl
  | cons c cs ih =>
    simp only [processAll, ih, List.filterMap_cons]
    cases c.process.2 <;> simp

/-! ### Lemmas about `partitionLoop` -/

theorem partitionLoop_eq (th : ℚ) (ts : List Task) (qp qe : List Task) :
    partitionLoop th ts (qp, qe) =
      (qp ++ ts.filter (fun t => decide (th < t.difficulty)),
       qe ++ ts.filter (fun t => !decide (th < t.difficulty))) := by
  induction ts generalizing qp qe with
  | nil => simp [partitionLoop]
  | cons t ts ih =>
    by_cases h : th < t.difficulty <;>
      simp [partitionLoop, h, ih, List.filter_cons]

/-! ### Lemmas about `assignIdle` -/

theorem assignIdle_length (cs : List Core) (q : List Task) :
    (assignIdle cs q).1.length = cs.length := by
  induction cs generalizing q with
  | nil => rfl
  | cons c cs ih =>
    cases q with
    | nil => simp [assignIdle, ih]
    | cons t q => by_cases h : c.is_idle <;> simp [assignIdle, h, ih]

theorem idleCount_cons (c : Core) (cs : List Core) :
    idleCount (c :: cs) = (if c.is_idle then 1 else 0) + idleCount cs := by
  by_cases h : c.is_idle <;> simp [idleCount, List.filter_cons, h, Nat.add_comm]

theorem idleCount_cons_idle {c : Core} (cs : List Core) (h : c.is_idle = true) :
    idleCount (c :: cs) = idleCount cs + 1 := by
  simp [idleCount, List.filter_cons, h]

theorem idleCount_cons_busy {c : Core} (cs : List Core) (h : ¬ c.is_idle = true) :
    idleCount (c :: cs) = idleCount cs := by
  simp [idleCount, List.filter_cons, h]

theorem assignIdle_snd (cs : List Core) (q : List Task) :
    (assignIdle cs q).2 = q.drop (min (idleCount cs) q.length) := by
  induction cs generalizing q with
  | nil =>
    simp only [assignIdle]
    rw [show idleCount ([] : List Core) = 0 from rfl, Nat.zero_min, List.drop_zero]
  | cons c cs ih =>
    cases q with
    | nil => simp [assignIdle, ih]
    | cons t q =>
      by_cases h : c.is_idle
      · simp [assignIdle, h, ih, idleCount_cons_idle cs h, Nat.succ_min_succ]
      · simp [assignIdle, h, ih, idleCount_cons_busy cs h]

theorem assignIdle_newly (cs : List Core) (q : List Task) :
    newlyAssigned cs (assignIdle cs q).1 = q.take (min (idleCount cs) q.length) := by
  induction cs generalizing q with
  | nil =>
    rw [show idleCount ([] : List Core) = 0 from rfl, Nat.zero_min, List.take_zero]
    rfl
  | cons c cs ih =>
    cases q with
    | nil =>
      have h := ih []
      simp only [assignIdle, newlyAssigned, List.zip_cons_cons, List.filterMap_cons] at h ⊢
      cases hc : c.task <;> simp [hc, h]
    | cons t q =>
      by_cases hid : c.is_idle
      · have hc : c.task = none := Option.isNone_iff_eq_none.mp hid
        have h := ih q
        simp only [newlyAssigned] at h
        simp [assignIdle, hid, newlyAssigned, List.zip_cons_cons,
          List.filterMap_cons, hc, Core.assign_task, h,
          idleCount_cons_idle cs hid, Nat.succ_min_succ]
      · obtain ⟨a, hc⟩ : ∃ a, c.task = some a := by
          cases hx : c.task with
          | none => exfalso; apply hid; simp [Core.is_idle, hx]
          | some a => exact ⟨a, rfl⟩
        have h := ih (t :: q)
        simp only [newlyAssigned] at h
        simp [assignIdle, hid, newlyAssigned, List.zip_cons_cons,
          List.filterMap_cons, hc, h, idleCount_cons_busy cs hid]

theorem assignIdle_busy (cs : List Core) (q : List Task) :
    List.Forall₂ (fun c c' => c.task ≠ none → c' = c) cs (assignIdle cs q).1 := by
  induction cs generalizing q with
  | nil => exact List.Forall₂.nil
  | cons c cs ih =>
    cases q with
    | nil => exact List.Forall₂.cons (fun _ => rfl) (ih [])
    | cons t q =>
      by_cases h : c.is_idle
      · have hc : c.task = none := Option.isNone_iff_eq_none.mp h
        simp only [assignIdle, h, if_true]
        exact List.Forall₂.cons (fun hn => absurd hc hn) (ih q)
      · simp only [assignIdle, h, if_false]
        exact List.Forall₂.cons (fun _ => rfl) (ih (t :: q))

theorem assignIdle_map {α : Type} (f : Core → α) (hf : ∀ c t, f (c.assign_task t) = f c)
    (cs : List Core) (q : List Task) :
    (assignIdle cs q).1.map f = cs.map f := by
  induction cs generalizing q with
  | nil => rfl
  | cons c cs ih =>
    cases q with
    | nil => simp [assignIdle, ih]
    | cons t q =>
      by_cases h : c.is_idle <;> simp [assignIdle, h, ih, hf]

theorem assignIdle_perm (cs : List Core) (q : List Task) :
    List.Perm (coreTasks (assignIdle cs q).1 ++ (assignIdle cs q).2) (coreTasks cs ++ q) := by
  induction cs generalizing q with
  | nil => simp [assignIdle, coreTasks]
  | cons c cs ih =>
    cases q with
    | nil =>
      have h := ih []
      cases hc : c.task with
      | none => simpa [assignIdle, coreTasks, List.filterMap_cons, hc] using h
      | some a => simpa [assignIdle, coreTasks, List.filterMap_cons, hc] using h.cons a
    | cons t q =>
      by_cases hid : c.is_idle
      · have hc : c.task = none := Option.isNone_iff_eq_none.mp hid
        have h := ih q
        simp only [coreTasks] at h
        simp only [assignIdle, hid, if_true, coreTasks, List.filterMap_cons,
          Core.assign_task, hc]
        exact ((h.cons t).trans List.perm_middle.symm)
      · obtain ⟨a, hc⟩ : ∃ a, c.task = some a := by
          cases hx : c.task with
          | none => exfalso; apply hid; simp [Core.is_idle, hx]
          | some a => exact ⟨a, rfl⟩
        have h := ih (t :: q)
        simp only [coreTasks] at h
        simp only [assignIdle, hid, if_false, Bool.false_eq_true, coreTasks,
          List.filterMap_cons, hc]
        exact h.cons a

theorem assignIdle_bag (cs : List Core) (q : List Task) :
    (coreTasks (assignIdle cs q).1 : Multiset Task) + ((assignIdle cs q).2 : Multiset Task)
      = (coreTasks cs : Multiset Task) + (q : Multiset Task) := by
  rw [Multiset.coe_add, Multiset.coe_add, Multiset.coe_eq_coe]
  exact assignIdle_perm cs q

theorem assignIdle_fst_mem {cs : List Core} {q : List Task} {t : Task}
    (h : t ∈ coreTasks (assignIdle cs q).1) : t ∈ coreTasks cs ∨ t ∈ q := by
  have hp := assignIdle_perm cs q
  exact List.mem_append.mp (hp.mem_iff.mp (List.mem_append.mpr (Or.inl h)))

theorem assignIdle_snd_mem {cs : List Core} {q : List Task} {t : Task}
    (h : t ∈ (assignIdle cs q).2) : t ∈ q := by
  rw [assignIdle_snd] at h
  exact List.mem_of_mem_drop h

/-! ### Lemmas about `assign_tasks` -/

theorem assign_tasks_def (s : CPUSimulator) :
    s.assign_tasks = { s with
      wait_queue_perf :=
        s.wait_queue_perf ++ s.tasks.filter (fun t => decide (s.threshold < t.difficulty)),
      wait_queue_eff :=
        s.wait_queue_eff ++ s.tasks.filter (fun t => !decide (s.threshold < t.difficulty)) } := by
  simp [CPUSimulator.assign_tasks, partitionLoop_eq]

/-! ### Lemmas about `assign_to_cores` -/

theorem assignIdleIte_fst_length (b : Prop) [Decidable b] (cs : List Core) (q q' : List Task) :
    (if b then assignIdle cs q else (cs, q')).1.length = cs.length := by
  split
  · exact assignIdle_length cs q
  · rfl

theorem assignIdleIte_map {α : Type} (f : Core → α) (hf : ∀ c t, f (c.assign_task t) = f c)
    (b : Prop) [Decidable b] (cs : List Core) (q q' : List Task) :
    (if b then assignIdle cs q else (cs, q')).1.map f = cs.map f := by
  split
  · exact assignIdle_map f hf cs q
  · rfl

theorem assignIdleIte_bag (b : Prop) [Decidable b] (cs : List Core) (q : List Task) :
    (coreTasks (if b then assignIdle cs q else (cs, q)).1 : Multiset Task)
      + ((if b then assignIdle cs q else (cs, q)).2 : Multiset Task)
      = (coreTasks cs : Multiset Task) + (q : Multiset Task) := by
  split
  · exact assignIdle_bag cs q
  · rfl

theorem assign_to_cores_cycle (s : CPUSimulator) : s.assign_to_cores.cycle = s.cycle := rfl

theorem assign_to_cores_completed (s : CPUSimulator) :
    s.assign_to_cores.completed_tasks = s.completed_tasks := rfl

theorem assign_to_cores_tasks (s : CPUSimulator) :
    s.assign_to_cores.tasks = s.tasks := rfl

theorem assign_to_cores_threshold (s : CPUSimulator) :
    s.assign_to_cores.threshold = s.threshold := rfl

theorem assign_to_cores_perf_length (s : CPUSimulator) :
    s.assign_to_cores.perf_cores.length = s.perf_cores.length := by
  simp only [CPUSimulator.assign_to_cores]
  rw [assignIdleIte_fst_length, assignIdle_length]

theorem assign_to_cores_eff_length (s : CPUSimulator) :
    s.assign_to_cores.eff_cores.length = s.eff_cores.length := by
  simp only [CPUSimulator.assign_to_cores]
  rw [assignIdleIte_fst_length, assignIdle_length]

theorem assign_to_cores_map_perf {α : Type} (f : Core → α)
    (hf : ∀ c t, f (c.assign_task t) = f c) (s : CPUSimulator) :
    s.assign_to_cores.perf_cores.map f = s.perf_cores.map f := by
  simp only [CPUSimulator.assign_to_cores]
  rw [assignIdleIte_map f hf, assignIdle_map f hf]

theorem assign_to_cores_map_eff {α : Type} (f : Core → α)
    (hf : ∀ c t, f (c.assign_task t) = f c) (s : CPUSimulator) :
    s.assign_to_cores.eff_cores.map f = s.eff_cores.map f := by
  simp only [CPUSimulator.assign_to_cores]
  rw [assignIdleIte_map f hf, assignIdle_map f hf]

theorem bag_shuffle {α : Type} [AddCommMonoid α]
    (cp1 ce1 cp2 ce2 qp1 qe1 qp2 qe2 cP cE wP wE : α)
    (h1 : cp1 + qp1 = cP + wP) (h2 : ce1 + qe1 = cE + wE)
    (h3 : cp2 + qe2 = cp1 + qe1) (h4 : ce2 + qp2 = ce1 + qp1) :
    cp2 + ce2 + qp2 + qe2 = cP + cE + wP + wE := by
  calc cp2 + ce2 + qp2 + qe2 = (cp2 + qe2) + (ce2 + qp2) := by abel
    _ = (cp1 + qe1) + (ce1 + qp1) := by rw [h3, h4]
    _ = (cp1 + qp1) + (ce1 + qe1) := by abel
    _ = (cP + wP) + (cE + wE) := by rw [h1, h2]
    _ = cP + cE + wP + wE := by abel

theorem assign_to_cores_bag (s : CPUSimulator) : activeBag s.assign_to_cores = activeBag s := by
  simp only [CPUSimulator.assign_to_cores, activeBag]
  refine bag_shuffle _ _ _ _ _ _ _ _ _ _ _ _
    (assignIdle_bag s.perf_cores s.wait_queue_perf)
    (assignIdle_bag s.eff_cores s.wait_queue_eff)
    (assignIdleIte_bag _ _ _) (assignIdleIte_bag _ _ _)

theorem mem_activeBag {s : CPUSimulator} {t : Task} :
    t ∈ activeBag s ↔ t ∈ coreTasks s.perf_cores ∨ t ∈ coreTasks s.eff_cores
      ∨ t ∈ s.wait_queue_perf ∨ t ∈ s.wait_queue_eff := by
  simp [activeBag, Multiset.mem_add, or_assoc]

/-! ### Lemmas about `run_cycle` and `simStep` -/

theorem run_cycle_def (s : CPUSimulator) :
    s.run_cycle = { s with
      cycle := s.cycle + 1,
      perf_cores := s.perf_cores.map (fun c => c.process.1),
      eff_cores := s.eff_cores.map (fun c => c.process.1),
      completed_tasks := s.completed_tasks
        ++ s.perf_cores.filterMap (fun c => c.process.2)
        ++ s.eff_cores.filterMap (fun c => c.process.2) } := by
  simp [CPUSimulator.run_cycle, processAll_fst, processAll_snd]

theorem simStep_cycle (s : CPUSimulator) : (simStep s).cycle = s.cycle + 1 := by
  simp [simStep, run_cycle_def, assign_to_cores_cycle]

theorem simStep_perf_length (s : CPUSimulator) :
    (simStep s).perf_cores.length = s.perf_cores.length := by
  simp [simStep, run_cycle_def, assign_to_cores_perf_length]

theorem simStep_eff_length (s : CPUSimulator) :
    (simStep s).eff_cores.length = s.eff_cores.length := by
  simp [simStep, run_cycle_def, assign_to_cores_eff_length]

/-! ### Lemmas about construction -/

theorem mkCores_length (base ct : String) (n : Nat) (sp en : ℚ) :
    (mkCores base ct n sp en).length = n := by
  simp [mkCores]

theorem coreTasks_mkCores (base ct : String) (n : Nat) (sp en : ℚ) :
    coreTasks (mkCores base ct n sp en) = [] := by
  rw [coreTasks, List.filterMap_eq_nil_iff]
  intro c hc
  simp only [mkCores, List.mem_map] at hc
  obtain ⟨i, _, hi⟩ := hc
  rw [← hi]
  rfl

theorem mkCores_speed {base ct : String} {n : Nat} {sp en : ℚ} {c : Core}
    (h : c ∈ mkCores base ct n sp en) : c.speed = sp ∧ c.energy_multiplier = en := by
  simp only [mkCores, List.mem_map] at h
  obtain ⟨i, _, hi⟩ := h
  rw [← hi]
  exact ⟨rfl, rfl⟩

theorem filter_length_split {α : Type} (p : α → Bool) (l : List α) :
    (l.filter p).length + (l.filter (fun a => !p a)).length = l.length := by
  induction l with
  | nil => rfl
  | cons a l ih =>
    by_cases h : p a <;> simp [List.filter_cons, h, ← ih] <;> omega

/-! ### Frame facts about `assign_tasks` -/

theorem assign_tasks_cycle (s : CPUSimulator) : s.assign_tasks.cycle = s.cycle := rfl

theorem assign_tasks_completed (s : CPUSimulator) :
    s.assign_tasks.completed_tasks = s.completed_tasks := rfl

theorem assign_tasks_perf_cores (s : CPUSimulator) :
    s.assign_tasks.perf_cores = s.perf_cores := rfl

theorem assign_tasks_eff_cores (s : CPUSimulator) :
    s.assign_tasks.eff_cores = s.eff_cores := rfl

theorem assign_tasks_tasks (s : CPUSimulator) : s.assign_tasks.tasks = s.tasks := rfl

theorem assign_tasks_threshold (s : CPUSimulator) : s.assign_tasks.threshold = s.threshold := rfl

/-! ### Preservation of the state invariant -/

theorem TasksOK_append {l1 l2 : List Task} :
    TasksOK (l1 ++ l2) ↔ TasksOK l1 ∧ TasksOK l2 := by
  simp [TasksOK, List.mem_append, or_imp, forall_and]

theorem taskOK_of_pool {cs : List Core} (h : TasksOK (coreTasks cs)) {c : Core} (hc : c ∈ cs) :
    ∀ t, c.task = some t → TaskOK t :=
  fun t htt => h t (List.mem_filterMap.mpr ⟨c, hc, htt⟩)

theorem Inv_assign_tasks {s : CPUSimulator} (hs : Inv s) (ht : TasksOK s.tasks) :
    Inv s.assign_tasks := by
  obtain ⟨h1, h2, h3, h4, h5, h6, h7⟩ := hs
  rw [assign_tasks_def]
  refine ⟨?_, ?_, h3, h4, h5, h6, h7⟩
  · exact TasksOK_append.mpr ⟨h1, fun t htm => ht t (List.mem_of_mem_filter htm)⟩
  · exact TasksOK_append.mpr ⟨h2, fun t htm => ht t (List.mem_of_mem_filter htm)⟩

theorem Inv_bagOK {s : CPUSimulator} (hs : Inv s) : ∀ t ∈ activeBag s, TaskOK t := by
  intro t ht
  rcases mem_activeBag.mp ht with h | h | h | h
  exacts [hs.2.2.1 t h, hs.2.2.2.1 t h, hs.1 t h, hs.2.1 t h]

theorem SpeedOK_of_map {cs cs' : List Core} (h : cs'.map Core.speed = cs.map Core.speed)
    (hok : SpeedOK cs) : SpeedOK cs' := by
  intro c hc
  have h2 : c.speed ∈ cs'.map Core.speed := List.mem_map_of_mem _ hc
  rw [h] at h2
  obtain ⟨c', hc', he⟩ := List.mem_map.mp h2
  rw [← he]
  exact hok c' hc'

theorem MultOK_of_map {cs cs' : List Core}
    (h : cs'.map Core.energy_multiplier = cs.map Core.energy_multiplier)
    (hok : MultOK cs) : MultOK cs' := by
  intro c hc
  have h2 : c.energy_multiplier ∈ cs'.map Core.energy_multiplier := List.mem_map_of_mem _ hc
  rw [h] at h2
  obtain ⟨c', hc', he⟩ := List.mem_map.mp h2
  rw [← he]
  exact hok c' hc'

theorem Inv_assign_to_cores {s : CPUSimulator} (hs : Inv s) : Inv s.assign_to_cores := by
  have hbag := Inv_bagOK hs
  have hb := assign_to_cores_bag s
  have hmem : ∀ t, (t ∈ coreTasks s.assign_to_cores.perf_cores
      ∨ t ∈ coreTasks s.assign_to_cores.eff_cores
      ∨ t ∈ s.assign_to_cores.wait_queue_perf
      ∨ t ∈ s.assign_to_cores.wait_queue_eff) → TaskOK t := by
    intro t ht
    have hm : t ∈ activeBag s.assign_to_cores := mem_activeBag.mpr ht
    rw [hb] at hm
    exact hbag t hm
  refine ⟨fun t ht => hmem t (Or.inr (Or.inr (Or.inl ht))),
      fun t ht => hmem t (Or.inr (Or.inr (Or.inr ht))),
      fun t ht => hmem t (Or.inl ht),
      fun t ht => hmem t (Or.inr (Or.inl ht)), ?_, ?_, ?_⟩
  · rw [assign_to_cores_completed]
    exact hs.2.2.2.2.1
  · exact SpeedOK_of_map (assign_to_cores_map_perf Core.speed (fun _ _ => rfl) s)
      hs.2.2.2.2.2.1
  · exact SpeedOK_of_map (assign_to_cores_map_eff Core.speed (fun _ _ => rfl) s)
      hs.2.2.2.2.2.2

theorem coreTasks_map_process {cs : List Core} {t' : Task}
    (h : t' ∈ coreTasks (cs.map (fun c => c.process.1))) :
    ∃ c ∈ cs, c.process.1.task = some t' := by
  simp only [coreTasks, List.mem_filterMap, List.mem_map] at h
  obtain ⟨c', ⟨c, hc, rfl⟩, ht⟩ := h
  exact ⟨c, hc, ht⟩

theorem SpeedOK_map_process {cs : List Core} (h : SpeedOK cs) :
    SpeedOK (cs.map (fun c => c.process.1)) := by
  intro c' hc'
  obtain ⟨c, hc, rfl⟩ := List.mem_map.mp hc'
  rw [Core.process_fst_speed]
  exact h c hc

theorem MultOK_map_process {cs : List Core} (h : MultOK cs) :
    MultOK (cs.map (fun c => c.process.1)) := by
  intro c' hc'
  obtain ⟨c, hc, rfl⟩ := List.mem_map.mp hc'
  rw [Core.process_fst_mult]
  exact h c hc

theorem Inv_run_cycle {s : CPUSimulator} (hs : Inv s) : Inv s.run_cycle := by
  obtain ⟨h1, h2, h3, h4, h5, h6, h7⟩ := hs
  rw [run_cycle_def]
  refine ⟨h1, h2, ?_, ?_, ?_, SpeedOK_map_process h6, SpeedOK_map_process h7⟩
  · intro t' ht'
    obtain ⟨c, hc, htask⟩ := coreTasks_map_process ht'
    exact Core.process_taskOK_fst (taskOK_of_pool h3 hc) (h6 c hc) htask
  · intro t' ht'
    obtain ⟨c, hc, htask⟩ := coreTasks_map_process ht'
    exact Core.process_taskOK_fst (taskOK_of_pool h4 hc) (h7 c hc) htask
  · intro t' ht'
    rcases List.mem_append.mp ht' with h' | h'
    · rcases List.mem_append.mp h' with h'' | h''
      · exact h5 t' h''
      · obtain ⟨c, hc, htask⟩ := List.mem_filterMap.mp h''
        exact Core.process_taskOK_snd (taskOK_of_pool h3 hc) htask
    · obtain ⟨c, hc, htask⟩ := List.mem_filterMap.mp h'
      exact Core.process_taskOK_snd (taskOK_of_pool h4 hc) htask

theorem Inv_simStep {s : CPUSimulator} (hs : Inv s) : Inv (simStep s) :=
  Inv_run_cycle (Inv_assign_to_cores hs)

theorem tasks_init_OK (tasks : List (String × ℚ)) (np ne : Nat) (ps pe es ee th : ℚ)
    (hd : ∀ p ∈ tasks, 0 ≤ p.2) :
    TasksOK (CPUSimulator.init tasks np ne ps pe es ee th).tasks := by
  intro t ht
  simp only [CPUSimulator.init, List.mem_map] at ht
  obtain ⟨p, hp, rfl⟩ := ht
  exact ⟨hd p hp, le_refl _⟩

theorem Inv_init (tasks : List (String × ℚ)) (np ne : Nat) (ps pe es ee th : ℚ)
    (hps : 0 ≤ ps) (hes : 0 ≤ es) :
    Inv (CPUSimulator.init tasks np ne ps pe es ee th) := by
  refine ⟨?_, ?_, ?_, ?_, ?_, ?_, ?_⟩
  · intro t ht; exact absurd ht (List.not_mem_nil t)
  · intro t ht; exact absurd ht (List.not_mem_nil t)
  · intro t ht
    rw [show (CPUSimulator.init tasks np ne ps pe es ee th).perf_cores
      = mkCores "P" "P" np ps pe from rfl, coreTasks_mkCores] at ht
    exact absurd ht (List.not_mem_nil t)
  · intro t ht
    rw [show (CPUSimulator.init tasks np ne ps pe es ee th).eff_cores
      = mkCores "E" "E" ne es ee from rfl, coreTasks_mkCores] at ht
    exact absurd ht (List.not_mem_nil t)
  · intro t ht; exact absurd ht (List.not_mem_nil t)
  · intro c hc
    exact (mkCores_speed hc).1 ▸ hps
  · intro c hc
    exact (mkCores_speed hc).1 ▸ hes

theorem MultOK_init (tasks : List (String × ℚ)) (np ne : Nat) (ps pe es ee th : ℚ)
    (hpe : 0 ≤ pe) (hee : 0 ≤ ee) :
    MultOK (CPUSimulator.init tasks np ne ps pe es ee th).perf_cores ∧
      MultOK (CPUSimulator.init tasks np ne ps pe es ee th).eff_cores := by
  constructor
  · intro c hc; exact (mkCores_speed hc).2 ▸ hpe
  · intro c hc; exact (mkCores_speed hc).2 ▸ hee

theorem MultOK_simStep {s : CPUSimulator}
    (h : MultOK s.perf_cores ∧ MultOK s.eff_cores) :
    MultOK (simStep s).perf_cores ∧ MultOK (simStep s).eff_cores := by
  have h1 := MultOK_of_map
    (assign_to_cores_map_perf Core.energy_multiplier (fun _ _ => rfl) s) h.1
  have h2 := MultOK_of_map
    (assign_to_cores_map_eff Core.energy_multiplier (fun _ _ => rfl) s) h.2
  constructor
  · rw [show (simStep s).perf_cores
      = s.assign_to_cores.perf_cores.map (fun c => c.process.1) from by
        simp [simStep, run_cycle_def]]
    exact MultOK_map_process h1
  · rw [show (simStep s).eff_cores
      = s.assign_to_cores.eff_cores.map (fun c => c.process.1) from by
        simp [simStep, run_cycle_def]]
    exact MultOK_map_process h2

theorem Inv_reach (tasks : List (String × ℚ)) (np ne : Nat) (ps pe es ee th : ℚ)
    (hd : ∀ p ∈ tasks, 0 ≤ p.2) (hps : 0 ≤ ps) (hes : 0 ≤ es) :
    ∀ n, Inv (reach (CPUSimulator.init tasks np ne ps pe es ee th) n) := by
  intro n
  induction n with
  | zero =>
    rw [reach, Function.iterate_zero, id]
    exact Inv_assign_tasks (Inv_init tasks np ne ps pe es ee th hps hes)
      (tasks_init_OK tasks np ne ps pe es ee th hd)
  | succ n ih =>
    rw [reach, Function.iterate_succ_apply']
    exact Inv_simStep ih

theorem MultOK_reach (tasks : List (String × ℚ)) (np ne : Nat) (ps pe es ee th : ℚ)
    (hpe : 0 ≤ pe) (hee : 0 ≤ ee) :
    ∀ n, MultOK (reach (CPUSimulator.init tasks np ne ps pe es ee th) n).perf_cores ∧
      MultOK (reach (CPUSimulator.init tasks np ne ps pe es ee th) n).eff_cores := by
  intro n
  induction n with
  | zero =>
    rw [reach, Function.iterate_zero, id]
    have h := MultOK_init tasks np ne ps pe es ee th hpe hee
    rw [show (CPUSimulator.init tasks np ne ps pe es ee th).assign_tasks.perf_cores
      = (CPUSimulator.init tasks np ne ps pe es ee th).perf_cores from rfl]
    rw [show (CPUSimulator.init tasks np ne ps pe es ee th).assign_tasks.eff_cores
      = (CPUSimulator.init tasks np ne ps pe es ee th).eff_cores from rfl]
    exact h
  | succ n ih =>
    rw [reach, Function.iterate_succ_apply']
    exact MultOK_simStep ih

/-! ### The no-fallback characterisation of `assign_to_cores` -/

theorem isEmpty_false_of_length_ne {l : List Core} (h : l.length ≠ 0) : l.isEmpty = false := by
  cases l with
  | nil => exact absurd rfl h
  | cons a l => rfl

theorem length_ne_zero_of_ne_nil {α : Type} {l : List α} (h : l ≠ []) : l.length ≠ 0 :=
  fun h0 => h (List.length_eq_zero.mp h0)

theorem assign_to_cores_eff_present {s : CPUSimulator} (he : s.eff_cores ≠ []) :
    s.assign_to_cores.perf_cores = (assignIdle s.perf_cores s.wait_queue_perf).1 ∧
      s.assign_to_cores.wait_queue_eff = (assignIdle s.eff_cores s.wait_queue_eff).2 := by
  have he1 : (assignIdle s.eff_cores s.wait_queue_eff).1.isEmpty = false :=
    isEmpty_false_of_length_ne
      (by rw [assignIdle_length]; exact length_ne_zero_of_ne_nil he)
  constructor
  · simp only [CPUSimulator.assign_to_cores, he1, Bool.false_and, Bool.false_eq_true, if_false]
  · simp only [CPUSimulator.assign_to_cores, he1, Bool.false_and, Bool.false_eq_true, if_false]

theorem assign_to_cores_perf_present {s : CPUSimulator} (hp : s.perf_cores ≠ []) :
    s.assign_to_cores.eff_cores = (assignIdle s.eff_cores s.wait_queue_eff).1 ∧
      s.assign_to_cores.wait_queue_perf = (assignIdle s.perf_cores s.wait_queue_perf).2 := by
  have hp0 : s.perf_cores.length ≠ 0 := length_ne_zero_of_ne_nil hp
  have hp2 : (if (assignIdle s.eff_cores s.wait_queue_eff).1.isEmpty
        && !(assignIdle s.eff_cores s.wait_queue_eff).2.isEmpty then
        assignIdle (assignIdle s.perf_cores s.wait_queue_perf).1
          (assignIdle s.eff_cores s.wait_queue_eff).2
      else ((assignIdle s.perf_cores s.wait_queue_perf).1,
        (assignIdle s.eff_cores s.wait_queue_eff).2)).1.isEmpty = false := by
    apply isEmpty_false_of_length_ne
    rw [assignIdleIte_fst_length, assignIdle_length]
    exact hp0
  constructor
  · simp only [CPUSimulator.assign_to_cores, hp2, Bool.false_and, Bool.false_eq_true, if_false]
  · simp only [CPUSimulator.assign_to_cores, hp2, Bool.false_and, Bool.false_eq_true, if_false]

theorem assign_to_cores_no_fallback {s : CPUSimulator}
    (hp : s.perf_cores ≠ []) (he : s.eff_cores ≠ []) :
    s.assign_to_cores.perf_cores = (assignIdle s.perf_cores s.wait_queue_perf).1 ∧
      s.assign_to_cores.eff_cores = (assignIdle s.eff_cores s.wait_queue_eff).1 ∧
      s.assign_to_cores.wait_queue_perf = (assignIdle s.perf_cores s.wait_queue_perf).2 ∧
      s.assign_to_cores.wait_queue_eff = (assignIdle s.eff_cores s.wait_queue_eff).2 :=
  ⟨(assign_to_cores_eff_present he).1, (assign_to_cores_perf_present hp).1,
    (assign_to_cores_perf_present hp).2, (assign_to_cores_eff_present he).2⟩

/-! ### Affinity preservation -/

theorem assign_tasks_wqp (s : CPUSimulator) :
    s.assign_tasks.wait_queue_perf =
      s.wait_queue_perf ++ s.tasks.filter (fun t => decide (s.threshold < t.difficulty)) := by
  rw [assign_tasks_def]

theorem assign_tasks_wqe (s : CPUSimulator) :
    s.assign_tasks.wait_queue_eff =
      s.wait_queue_eff ++ s.tasks.filter (fun t => !decide (s.threshold < t.difficulty)) := by
  rw [assign_tasks_def]

theorem Affinity_assign_tasks {s : CPUSimulator} (h : Affinity s) : Affinity s.assign_tasks := by
  obtain ⟨h1, h2, h3, h4⟩ := h
  refine ⟨?_, ?_, ?_, ?_⟩ <;>
    simp only [assign_tasks_threshold, assign_tasks_wqp, assign_tasks_wqe,
      assign_tasks_perf_cores, assign_tasks_eff_cores]
  · intro t ht
    rcases List.mem_append.mp ht with h' | h'
    · exact h1 t h'
    · exact of_decide_eq_true ((List.mem_filter.mp h').2)
  · intro t ht
    rcases List.mem_append.mp ht with h' | h'
    · exact h2 t h'
    · have := (List.mem_filter.mp h').2
      simp only [Bool.not_eq_true', decide_eq_false_iff_not] at this
      exact this
  · exact h3
  · exact h4

theorem Affinity_assign_to_cores {s : CPUSimulator}
    (hp : s.perf_cores ≠ []) (he : s.eff_cores ≠ []) (h : Affinity s) :
    Affinity s.assign_to_cores := by
  obtain ⟨h1, h2, h3, h4⟩ := h
  obtain ⟨e1, e2, e3, e4⟩ := assign_to_cores_no_fallback hp he
  refine ⟨?_, ?_, ?_, ?_⟩ <;> rw [assign_to_cores_threshold]
  · intro t ht
    rw [e3] at ht
    exact h1 t (assignIdle_snd_mem ht)
  · intro t ht
    rw [e4] at ht
    exact h2 t (assignIdle_snd_mem ht)
  · intro t ht
    rw [e1] at ht
    rcases assignIdle_fst_mem ht with h' | h'
    · exact h3 t h'
    · exact h1 t h'
  · intro t ht
    rw [e2] at ht
    rcases assignIdle_fst_mem ht with h' | h'
    · exact h4 t h'
    · exact h2 t h'

theorem Affinity_run_cycle {s : CPUSimulator} (h : Affinity s) : Affinity s.run_cycle := by
  obtain ⟨h1, h2, h3, h4⟩ := h
  rw [run_cycle_def]
  refine ⟨h1, h2, ?_, ?_⟩
  · intro t' ht'
    obtain ⟨c, hc, htask⟩ := coreTasks_map_process ht'
    obtain ⟨t, htc, hd, _, _⟩ := Core.process_fst_task htask
    rw [hd]
    exact h3 t (List.mem_filterMap.mpr ⟨c, hc, htc⟩)
  · intro t' ht'
    obtain ⟨c, hc, htask⟩ := coreTasks_map_process ht'
    obtain ⟨t, htc, hd, _, _⟩ := Core.process_fst_task htask
    rw [hd]
    exact h4 t (List.mem_filterMap.mpr ⟨c, hc, htc⟩)

theorem Affinity_simStep {s : CPUSimulator}
    (hp : s.perf_cores ≠ []) (he : s.eff_cores ≠ []) (h : Affinity s) :
    Affinity (simStep s) :=
  Affinity_run_cycle (Affinity_assign_to_cores hp he h)

theorem reach_perf_length (s : CPUSimulator) (n : Nat) :
    (reach s n).perf_cores.length = s.perf_cores.length := by
  induction n with
  | zero => rw [reach, Function.iterate_zero, id, assign_tasks_perf_cores]
  | succ n ih => rw [reach, Function.iterate_succ_apply', simStep_perf_length]; exact ih

theorem reach_eff_length (s : CPUSimulator) (n : Nat) :
    (reach s n).eff_cores.length = s.eff_cores.length := by
  induction n with
  | zero => rw [reach, Function.iterate_zero, id, assign_tasks_eff_cores]
  | succ n ih => rw [reach, Function.iterate_succ_apply', simStep_eff_length]; exact ih

theorem Affinity_reach {s : CPUSimulator}
    (hp : s.perf_cores ≠ []) (he : s.eff_cores ≠ [])
    (hq1 : s.wait_queue_perf = []) (hq2 : s.wait_queue_eff = [])
    (hc1 : coreTasks s.perf_cores = []) (hc2 : coreTasks s.eff_cores = []) :
    ∀ n, Affinity (reach s n) := by
  have hbase : Affinity s := by
    refine ⟨?_, ?_, ?_, ?_⟩ <;> intro t ht
    · rw [hq1] at ht; exact absurd ht (List.not_mem_nil t)
    · rw [hq2] at ht; exact absurd ht (List.not_mem_nil t)
    · rw [hc1] at ht; exact absurd ht (List.not_mem_nil t)
    · rw [hc2] at ht; exact absurd ht (List.not_mem_nil t)
  intro n
  induction n with
  | zero =>
    rw [reach, Function.iterate_zero, id]
    exact Affinity_assign_tasks hbase
  | succ n ih =>
    rw [reach] at ih
    rw [reach, Function.iterate_succ_apply']
    refine Affinity_simStep ?_ ?_ ih
    · intro h0
      have hl := reach_perf_length s n
      rw [reach, h0] at hl
      exact length_ne_zero_of_ne_nil hp hl.symm
    · intro h0
      have hl := reach_eff_length s n
      rw [reach, h0] at hl
      exact length_ne_zero_of_ne_nil he hl.symm

/-! ### Behaviour with zero cores -/

theorem simStep_perf_empty {s : CPUSimulator} (hp : s.perf_cores = []) :
    (simStep s).perf_cores = [] := by
  apply List.length_eq_zero.mp
  rw [simStep_perf_length, hp]
  rfl

theorem simStep_eff_empty {s : CPUSimulator} (he : s.eff_cores = []) :
    (simStep s).eff_cores = [] := by
  apply List.length_eq_zero.mp
  rw [simStep_eff_length, he]
  rfl

theorem simStep_completed_no_cores {s : CPUSimulator}
    (hp : s.perf_cores = []) (he : s.eff_cores = []) :
    (simStep s).completed_tasks = s.completed_tasks := by
  have h1 : s.assign_to_cores.perf_cores = [] :=
    List.length_eq_zero.mp (by rw [assign_to_cores_perf_length, hp]; rfl)
  have h2 : s.assign_to_cores.eff_cores = [] :=
    List.length_eq_zero.mp (by rw [assign_to_cores_eff_length, he]; rfl)
  rw [show simStep s = s.assign_to_cores.run_cycle from rfl, run_cycle_def]
  simp [h1, h2, assign_to_cores_completed]

theorem runSimLoop_none {total : Nat} (htotal : 0 < total) :
    ∀ fuel (s : CPUSimulator), s.perf_cores = [] → s.eff_cores = [] →
      s.completed_tasks = [] → runSimLoop total fuel s = none := by
  intro fuel
  induction fuel with
  | zero =>
    intro s hp he hc
    rw [runSimLoop, if_pos (by rw [hc]; exact htotal)]
  | succ n ih =>
    intro s hp he hc
    rw [runSimLoop, if_pos (by rw [hc]; exact htotal)]
    exact ih (simStep s) (simStep_perf_empty hp) (simStep_eff_empty he)
      (by rw [simStep_completed_no_cores hp he, hc])

/-! ### Task counting (conservation of the number of tasks) -/

theorem processAll_count (cs : List Core) :
    (coreTasks (cs.map (fun c => c.process.1))).length
      + (cs.filterMap (fun c => c.process.2)).length = (coreTasks cs).length := by
  induction cs with
  | nil => rfl
  | cons c cs ih =>
    simp only [List.map_cons, coreTasks, List.filterMap_cons] at ih ⊢
    cases hc : c.task with
    | none =>
      rw [Core.process_none hc]
      simp only [hc]
      omega
    | some t =>
      rw [Core.process_some hc]
      by_cases hle : t.remaining ≤ c.speed
      · rw [if_pos hle]
        simp only [hc, List.length_cons]
        omega
      · rw [if_neg hle]
        simp only [hc, List.length_cons]
        omega

theorem run_cycle_count (s : CPUSimulator) :
    s.run_cycle.completed_tasks.length + Multiset.card (activeBag s.run_cycle)
      = s.completed_tasks.length + Multiset.card (activeBag s) := by
  rw [run_cycle_def]
  simp only [activeBag, Multiset.card_add, Multiset.coe_card, List.length_append]
  have hP := processAll_count s.perf_cores
  have hE := processAll_count s.eff_cores
  omega

theorem simStep_count (s : CPUSimulator) :
    (simStep s).completed_tasks.length + Multiset.card (activeBag (simStep s))
      = s.completed_tasks.length + Multiset.card (activeBag s) := by
  rw [show simStep s = s.assign_to_cores.run_cycle from rfl, run_cycle_count,
    assign_to_cores_completed, assign_to_cores_bag]

/-! ### The bounded loop -/

theorem boundedLoop_cycle_le {total mc : Nat} :
    ∀ fuel (s : CPUSimulator), s.cycle ≤ mc →
      (boundedLoop total mc fuel s).cycle ≤ mc := by
  intro fuel
  induction fuel with
  | zero => intro s h; exact h
  | succ n ih =>
    intro s h
    rw [boundedLoop]
    split
    · next hcond => exact ih _ (by rw [simStep_cycle]; omega)
    · exact h

theorem reach_threshold (s : CPUSimulator) (n : Nat) : (reach s n).threshold = s.threshold := by
  induction n with
  | zero => rw [reach, Function.iterate_zero, id, assign_tasks_threshold]
  | succ n ih =>
    rw [reach, Function.iterate_succ_apply']
    rw [reach] at ih
    rw [show (simStep (simStep^[n] s.assign_tasks)).threshold
      = (simStep^[n] s.assign_tasks).threshold from rfl]
    exact ih

theorem count_filter_split {α : Type} [DecidableEq α] (p : α → Bool) (l : List α) (a : α) :
    (l.filter p).count a + (l.filter (fun x => !p x)).count a = l.count a := by
  induction l with
  | nil => rfl
  | cons b l ih =>
    rw [List.filter_cons, List.filter_cons, List.count_cons]
    by_cases hb : p b
    · rw [if_pos hb, if_neg (show ¬ (!p b) = true by simp [hb]), List.count_cons]
      by_cases hab : (b == a) = true
      · rw [if_pos hab]; omega
      · rw [if_neg hab]; omega
    · rw [if_neg hb, if_pos (show (!p b) = true by simp [hb]), List.count_cons]
      by_cases hab : (b == a) = true
      · rw [if_pos hab]; omega
      · rw [if_neg hab]; omega

theorem forall₂_le_map (cs : List Core)
    (h : ∀ c ∈ cs, c.energy_used ≤ c.process.1.energy_used) :
    List.Forall₂ (fun a b => a ≤ b) (cs.map Core.energy_used)
      (cs.map (fun c => c.process.1.energy_used)) := by
  induction cs with
  | nil => exact List.Forall₂.nil
  | cons c cs ih =>
    exact List.Forall₂.cons (h c (List.mem_cons_self c cs))
      (ih fun c' hc' => h c' (List.mem_cons_of_mem c hc'))

theorem energy_mono_simStep {s : CPUSimulator} (hInv : Inv s)
    (hM : MultOK s.perf_cores ∧ MultOK s.eff_cores) :
    List.Forall₂ (fun a b => a ≤ b) (s.perf_cores.map Core.energy_used)
        ((simStep s).perf_cores.map Core.energy_used) ∧
      List.Forall₂ (fun a b => a ≤ b) (s.eff_cores.map Core.energy_used)
        ((simStep s).eff_cores.map Core.energy_used) := by
  have hInv1 := Inv_assign_to_cores hInv
  have hM1 : MultOK s.assign_to_cores.perf_cores :=
    MultOK_of_map (assign_to_cores_map_perf Core.energy_multiplier (fun _ _ => rfl) s) hM.1
  have hM2 : MultOK s.assign_to_cores.eff_cores :=
    MultOK_of_map (assign_to_cores_map_eff Core.energy_multiplier (fun _ _ => rfl) s) hM.2
  constructor
  · rw [show (simStep s).perf_cores
      = s.assign_to_cores.perf_cores.map (fun c => c.process.1) from by
        simp [simStep, run_cycle_def]]
    rw [← assign_to_cores_map_perf Core.energy_used (fun _ _ => rfl) s, List.map_map]
    exact forall₂_le_map _ fun c hc =>
      Core.process_energy_mono c (taskOK_of_pool hInv1.2.2.1 hc)
        (hInv1.2.2.2.2.2.1 c hc) (hM1 c hc)
  · rw [show (simStep s).eff_cores
      = s.assign_to_cores.eff_cores.map (fun c => c.process.1) from by
        simp [simStep, run_cycle_def]]
    rw [← assign_to_cores_map_eff Core.energy_used (fun _ _ => rfl) s, List.map_map]
    exact forall₂_le_map _ fun c hc =>
      Core.process_energy_mono c (taskOK_of_pool hInv1.2.2.2.1 hc)
        (hInv1.2.2.2.2.2.2 c hc) (hM2 c hc)

theorem boundedLoop_count {total mc : Nat} :
    ∀ fuel (s : CPUSimulator),
      (boundedLoop total mc fuel s).completed_tasks.length
          + Multiset.card (activeBag (boundedLoop total mc fuel s))
        = s.completed_tasks.length + Multiset.card (activeBag s) := by
  intro fuel
  induction fuel with
  | zero => intro s; rfl
  | succ n ih =>
    intro s
    rw [boundedLoop]
    split
    · rw [ih (simStep s), simStep_count]
    · rfl

/-! ## Claim theorems -/

/-- C2: `Core.process` on a core holding task `t` reduces the task's
remaining by `min(remaining, speed)` (wherever the task ends up), adds that
work times the energy multiplier to `energy_used`, detaches and returns the
task exactly when the new remaining is `0`, and on an idle core is a no-op
returning nothing. -/
theorem C2_process_contract (c : Core) (t : Task) (h : c.task = some t) :
    (∀ t', (c.process.1.task = some t' ∨ c.process.2 = some t') →
        t'.remaining = t.remaining - min t.remaining c.speed ∧
          t'.name = t.name ∧ t'.difficulty = t.difficulty) ∧
    c.process.1.energy_used
        = c.energy_used + min t.remaining c.speed * c.energy_multiplier ∧
    (t.remaining - min t.remaining c.speed = 0 →
      c.process.1.task = none ∧
        c.process.2 = some { t with remaining := t.remaining - min t.remaining c.speed }) ∧
    (t.remaining - min t.remaining c.speed ≠ 0 →
      c.process.1.task = some { t with remaining := t.remaining - min t.remaining c.speed } ∧
        c.process.2 = none) ∧
    (∀ c' : Core, c'.task = none → c'.process = (c', none)) := by
  have hcond : (t.remaining - min t.remaining c.speed = 0) ↔ t.remaining ≤ c.speed := by
    rw [sub_eq_zero, eq_comm, min_eq_left_iff]
  rw [Core.process_some h]
  by_cases hle : t.remaining ≤ c.speed
  · rw [if_pos hle]
    refine ⟨?_, rfl, fun _ => ⟨rfl, rfl⟩,
      fun h0 => absurd (hcond.mpr hle) h0, fun c' hc' => Core.process_none hc'⟩
    rintro t' (ht' | ht')
    · exact absurd ht' (by simp)
    · rw [Option.some_inj] at ht'
      subst ht'
      exact ⟨rfl, rfl, rfl⟩
  · rw [if_neg hle]
    refine ⟨?_, rfl, fun h0 => absurd (hcond.mp h0) hle,
      fun _ => ⟨rfl, rfl⟩, fun c' hc' => Core.process_none hc'⟩
    rintro t' (ht' | ht')
    · rw [Option.some_inj] at ht'
      subst ht'
      exact ⟨rfl, rfl, rfl⟩
    · exact absurd ht' (by simp)

/-- Witness for C2 at a concrete busy core. -/
theorem C2_process_contract_witness :
    ({ name := "c", core_type := "P", speed := 2, energy_multiplier := 3,
       task := some { name := "t", difficulty := 5, remaining := 1 },
       energy_used := 0 } : Core).process.1.energy_used
      = 0 + min (1 : ℚ) 2 * 3 :=
  (C2_process_contract _ { name := "t", difficulty := 5, remaining := 1 } rfl).2.1

/-- C3: on tasks A(5), B(2), C(3) with one Performance core
(speed 1.5, energy 1.33), one Efficiency core (speed 1.0, energy 1.0) and
threshold 2, the run completes in 6 cycles with total energy
(5+3)·1.33 + 2·1.0 = 12.64. -/
theorem C3_example_run :
    (CPUSimulator.run_simulation 10
        (CPUSimulator.init [("A", 5), ("B", 2), ("C", 3)] 1 1 (3/2) (133/100) 1 1 2)).map
        (fun s => (s.cycle, s.total_energy))
      = some (6, (5 + 3) * (133/100) + 2 * 1) := by
  with_unfolding_all rfl

/-- C10: partitioning and dispatch are pure task-movers: `assign_tasks`
leaves the cycle counter, the completed list, both core pools (hence all
energies) and the backlog untouched, only copying backlog tasks unchanged
into the queues; `assign_to_cores` leaves the cycle counter, the completed
list, the backlog and every core's `energy_used` untouched and permutes the
multiset of in-flight tasks (so no task's `remaining` changes). -/
theorem C10_assign_frame (s : CPUSimulator) :
    (s.assign_tasks.cycle = s.cycle ∧
      s.assign_tasks.completed_tasks = s.completed_tasks ∧
      s.assign_tasks.perf_cores = s.perf_cores ∧
      s.assign_tasks.eff_cores = s.eff_cores ∧
      s.assign_tasks.tasks = s.tasks ∧
      (∀ t ∈ s.assign_tasks.wait_queue_perf, t ∈ s.wait_queue_perf ∨ t ∈ s.tasks) ∧
      (∀ t ∈ s.assign_tasks.wait_queue_eff, t ∈ s.wait_queue_eff ∨ t ∈ s.tasks)) ∧
    (s.assign_to_cores.cycle = s.cycle ∧
      s.assign_to_cores.completed_tasks = s.completed_tasks ∧
      s.assign_to_cores.tasks = s.tasks ∧
      s.assign_to_cores.perf_cores.map Core.energy_used = s.perf_cores.map Core.energy_used ∧
      s.assign_to_cores.eff_cores.map Core.energy_used = s.eff_cores.map Core.energy_used ∧
      activeBag s.assign_to_cores = activeBag s) := by
  refine ⟨⟨assign_tasks_cycle s, assign_tasks_completed s, rfl, rfl, rfl, ?_, ?_⟩,
    assign_to_cores_cycle s, assign_to_cores_completed s, assign_to_cores_tasks s,
    assign_to_cores_map_perf Core.energy_used (fun _ _ => rfl) s,
    assign_to_cores_map_eff Core.energy_used (fun _ _ => rfl) s, assign_to_cores_bag s⟩
  · intro t ht
    rw [assign_tasks_wqp] at ht
    rcases List.mem_append.mp ht with h | h
    · exact Or.inl h
    · exact Or.inr (List.mem_of_mem_filter h)
  · intro t ht
    rw [assign_tasks_wqe] at ht
    rcases List.mem_append.mp ht with h | h
    · exact Or.inl h
    · exact Or.inr (List.mem_of_mem_filter h)

/-- Witness for C10: the backlog task A is copied unchanged into the
performance queue. -/
theorem C10_assign_frame_witness :
    ({ name := "A", difficulty := 5, remaining := 5 } : Task)
        ∈ (CPUSimulator.init [("A", (5:ℚ))] 1 1 (3/2) (133/100) 1 1 2).assign_tasks.wait_queue_perf ∧
      (({ name := "A", difficulty := 5, remaining := 5 } : Task)
          ∈ (CPUSimulator.init [("A", (5:ℚ))] 1 1 (3/2) (133/100) 1 1 2).wait_queue_perf ∨
        ({ name := "A", difficulty := 5, remaining := 5 } : Task)
          ∈ (CPUSimulator.init [("A", (5:ℚ))] 1 1 (3/2) (133/100) 1 1 2).tasks) := by
  have hm : ({ name := "A", difficulty := 5, remaining := 5 } : Task)
      ∈ (CPUSimulator.init [("A", (5:ℚ))] 1 1 (3/2) (133/100) 1 1 2).assign_tasks.wait_queue_perf := by
    have he : (CPUSimulator.init [("A", (5:ℚ))] 1 1 (3/2) (133/100)
          1 1 2).assign_tasks.wait_queue_perf
        = [{ name := "A", difficulty := 5, remaining := 5 }] := by
      with_unfolding_all rfl
    rw [he]
    exact List.mem_singleton.mpr rfl
  exact ⟨hm, (C10_assign_frame _).1.2.2.2.2.2.1 _ hm⟩

/-- C9: with zero cores of both types and a non-empty task list the main
loop never makes progress: after any number of iterations the completed
list is still empty and strictly below the task total, and `run_simulation`
fails to terminate for every fuel bound. -/
theorem C9_zero_cores_diverge (tasks : List (String × ℚ)) (ps pe es ee th : ℚ)
    (h : tasks ≠ []) :
    (∀ n, (reach (CPUSimulator.init tasks 0 0 ps pe es ee th) n).completed_tasks = [] ∧
        (reach (CPUSimulator.init tasks 0 0 ps pe es ee th) n).completed_tasks.length
          < (CPUSimulator.init tasks 0 0 ps pe es ee th).assign_tasks.wait_queue_perf.length
            + (CPUSimulator.init tasks 0 0 ps pe es ee th).assign_tasks.wait_queue_eff.length) ∧
      (∀ fuel,
        CPUSimulator.run_simulation fuel (CPUSimulator.init tasks 0 0 ps pe es ee th) = none) := by
  have hp0 : (CPUSimulator.init tasks 0 0 ps pe es ee th).perf_cores = [] := by
    simp [CPUSimulator.init, mkCores]
  have he0 : (CPUSimulator.init tasks 0 0 ps pe es ee th).eff_cores = [] := by
    simp [CPUSimulator.init, mkCores]
  have hpos : 0 < tasks.length := by
    cases tasks with
    | nil => exact absurd rfl h
    | cons a l => simp
  have htot : (CPUSimulator.init tasks 0 0 ps pe es ee th).assign_tasks.wait_queue_perf.length
      + (CPUSimulator.init tasks 0 0 ps pe es ee th).assign_tasks.wait_queue_eff.length
      = tasks.length := by
    rw [assign_tasks_wqp, assign_tasks_wqe]
    simp only [List.length_append]
    rw [show (CPUSimulator.init tasks 0 0 ps pe es ee th).wait_queue_perf = [] from rfl,
      show (CPUSimulator.init tasks 0 0 ps pe es ee th).wait_queue_eff = [] from rfl]
    simp only [List.length_nil, Nat.zero_add]
    rw [filter_length_split]
    rw [show (CPUSimulator.init tasks 0 0 ps pe es ee th).tasks
      = tasks.map (fun p => Task.init p.1 p.2) from rfl, List.length_map]
  have hreach : ∀ n, (reach (CPUSimulator.init tasks 0 0 ps pe es ee th) n).completed_tasks = []
      ∧ (reach (CPUSimulator.init tasks 0 0 ps pe es ee th) n).perf_cores = []
      ∧ (reach (CPUSimulator.init tasks 0 0 ps pe es ee th) n).eff_cores = [] := by
    intro n
    induction n with
    | zero =>
      rw [reach, Function.iterate_zero, id]
      exact ⟨rfl, by rw [assign_tasks_perf_cores]; exact hp0,
        by rw [assign_tasks_eff_cores]; exact he0⟩
    | succ n ih =>
      rw [reach] at ih
      rw [reach, Function.iterate_succ_apply']
      exact ⟨by rw [simStep_completed_no_cores ih.2.1 ih.2.2]; exact ih.1,
        simStep_perf_empty ih.2.1, simStep_eff_empty ih.2.2⟩
  constructor
  · intro n
    refine ⟨(hreach n).1, ?_⟩
    rw [(hreach n).1, htot]
    exact hpos
  · intro fuel
    have h1 : runSimLoop
        ((CPUSimulator.init tasks 0 0 ps pe es ee th).assign_tasks.wait_queue_perf.length
          + (CPUSimulator.init tasks 0 0 ps pe es ee th).assign_tasks.wait_queue_eff.length)
        fuel ((CPUSimulator.init tasks 0 0 ps pe es ee th).assign_tasks) = none := by
      apply runSimLoop_none (by rw [htot]; exact hpos) fuel
      · rw [assign_tasks_perf_cores]; exact hp0
      · rw [assign_tasks_eff_cores]; exact he0
      · rfl
    simp only [CPUSimulator.run_simulation, h1]

/-- Witness for C9: a concrete one-task, zero-core simulation does not
finish within five loop iterations. -/
theorem C9_zero_cores_diverge_witness :
    ([(("T", (1:ℚ)))] : List (String × ℚ)) ≠ [] ∧
      CPUSimulator.run_simulation 5
        (CPUSimulator.init [("T", (1:ℚ))] 0 0 (3/2) (133/100) 1 1 2) = none := by
  have h : ([(("T", (1:ℚ)))] : List (String × ℚ)) ≠ [] := by simp
  exact ⟨h, (C9_zero_cores_diverge [("T", 1)] (3/2) (133/100) 1 1 2 h).2 5⟩

/-- C4: partitioning appends each backlog task to exactly one queue —
the performance queue iff `difficulty > threshold` — preserving backlog
order (the queues are order-preserving filters and the classification
counts add up); with both pools present, dispatch pops tasks from the
front of each queue (drop/take of length `min(#idle, queue length)`),
gives the popped tasks to the idle cores of the matching type in order,
and leaves busy cores untouched. -/
theorem C4_partition_and_fifo (s : CPUSimulator)
    (hp : s.perf_cores ≠ []) (he : s.eff_cores ≠ []) :
    (s.assign_tasks.wait_queue_perf
        = s.wait_queue_perf ++ s.tasks.filter (fun t => decide (s.threshold < t.difficulty)) ∧
      s.assign_tasks.wait_queue_eff
        = s.wait_queue_eff ++ s.tasks.filter (fun t => !decide (s.threshold < t.difficulty)) ∧
      ∀ t, (s.tasks.filter (fun t' => decide (s.threshold < t'.difficulty))).count t
          + (s.tasks.filter (fun t' => !decide (s.threshold < t'.difficulty))).count t
          = s.tasks.count t) ∧
    (s.assign_to_cores.wait_queue_perf
        = s.wait_queue_perf.drop (min (idleCount s.perf_cores) s.wait_queue_perf.length) ∧
      s.assign_to_cores.wait_queue_eff
        = s.wait_queue_eff.drop (min (idleCount s.eff_cores) s.wait_queue_eff.length) ∧
      newlyAssigned s.perf_cores s.assign_to_cores.perf_cores
        = s.wait_queue_perf.take (min (idleCount s.perf_cores) s.wait_queue_perf.length) ∧
      newlyAssigned s.eff_cores s.assign_to_cores.eff_cores
        = s.wait_queue_eff.take (min (idleCount s.eff_cores) s.wait_queue_eff.length) ∧
      List.Forall₂ (fun c c' => c.task ≠ none → c' = c)
        s.perf_cores s.assign_to_cores.perf_cores ∧
      List.Forall₂ (fun c c' => c.task ≠ none → c' = c)
        s.eff_cores s.assign_to_cores.eff_cores) := by
  obtain ⟨e1, e2, e3, e4⟩ := assign_to_cores_no_fallback hp he
  refine ⟨⟨assign_tasks_wqp s, assign_tasks_wqe s,
    fun t => count_filter_split _ s.tasks t⟩, ?_, ?_, ?_, ?_, ?_, ?_⟩
  · rw [e3, assignIdle_snd]
  · rw [e4, assignIdle_snd]
  · rw [e1, assignIdle_newly]
  · rw [e2, assignIdle_newly]
  · rw [e1]; exact assignIdle_busy _ _
  · rw [e2]; exact assignIdle_busy _ _

/-- Witness for C4: dispatch on a concrete two-task state removes the
front of the performance queue. -/
theorem C4_partition_and_fifo_witness :
    (CPUSimulator.init [("A", (5:ℚ)), ("B", 1)] 1 1 (3/2) (133/100)
        1 1 2).assign_tasks.perf_cores ≠ [] ∧
      (CPUSimulator.init [("A", (5:ℚ)), ("B", 1)] 1 1 (3/2) (133/100)
          1 1 2).assign_tasks.assign_to_cores.wait_queue_perf
        = (CPUSimulator.init [("A", (5:ℚ)), ("B", 1)] 1 1 (3/2) (133/100)
            1 1 2).assign_tasks.wait_queue_perf.drop
          (min (idleCount (CPUSimulator.init [("A", (5:ℚ)), ("B", 1)] 1 1 (3/2) (133/100)
              1 1 2).assign_tasks.perf_cores)
            (CPUSimulator.init [("A", (5:ℚ)), ("B", 1)] 1 1 (3/2) (133/100)
              1 1 2).assign_tasks.wait_queue_perf.length) := by
  have hp : (CPUSimulator.init [("A", (5:ℚ)), ("B", 1)] 1 1 (3/2) (133/100)
      1 1 2).assign_tasks.perf_cores ≠ [] := by
    rw [assign_tasks_perf_cores]
    simp [CPUSimulator.init, mkCores]
  have he : (CPUSimulator.init [("A", (5:ℚ)), ("B", 1)] 1 1 (3/2) (133/100)
      1 1 2).assign_tasks.eff_cores ≠ [] := by
    rw [assign_tasks_eff_cores]
    simp [CPUSimulator.init, mkCores]
  exact ⟨hp, (C4_partition_and_fifo _ hp he).2.1⟩

/-- C1: a fallback pass touches a foreign queue only when the preferred
pool has zero cores — whenever an Efficiency pool exists the Performance
cores are filled exclusively by the primary pass from the Performance
queue and the Efficiency queue is drained exclusively by the Efficiency
pool's primary pass (and symmetrically); consequently, in a simulator
built with at least one core of each type, at every reachable point every
busy Performance core holds a task with `difficulty > threshold` and every
busy Efficiency core holds a task with `difficulty ≤ threshold`. -/
theorem C1_affinity_and_fallback (tasks : List (String × ℚ)) (np ne : Nat)
    (ps pe es ee th : ℚ) (hp : np ≠ 0) (he : ne ≠ 0) :
    (∀ s : CPUSimulator, s.eff_cores ≠ [] →
        s.assign_to_cores.perf_cores = (assignIdle s.perf_cores s.wait_queue_perf).1 ∧
          s.assign_to_cores.wait_queue_eff = (assignIdle s.eff_cores s.wait_queue_eff).2) ∧
      (∀ s : CPUSimulator, s.perf_cores ≠ [] →
        s.assign_to_cores.eff_cores = (assignIdle s.eff_cores s.wait_queue_eff).1 ∧
          s.assign_to_cores.wait_queue_perf = (assignIdle s.perf_cores s.wait_queue_perf).2) ∧
      (∀ n,
        (∀ t ∈ coreTasks (reach (CPUSimulator.init tasks np ne ps pe es ee th) n).perf_cores,
          th < t.difficulty) ∧
        (∀ t ∈ coreTasks (reach (CPUSimulator.init tasks np ne ps pe es ee th) n).eff_cores,
          ¬ th < t.difficulty)) := by
  refine ⟨fun s hs => assign_to_cores_eff_present hs,
    fun s hs => assign_to_cores_perf_present hs, ?_⟩
  intro n
  have hpn : (CPUSimulator.init tasks np ne ps pe es ee th).perf_cores ≠ [] := by
    intro h0
    apply hp
    rw [← mkCores_length "P" "P" np ps pe,
      show mkCores "P" "P" np ps pe
        = (CPUSimulator.init tasks np ne ps pe es ee th).perf_cores from rfl, h0]
    rfl
  have hen : (CPUSimulator.init tasks np ne ps pe es ee th).eff_cores ≠ [] := by
    intro h0
    apply he
    rw [← mkCores_length "E" "E" ne es ee,
      show mkCores "E" "E" ne es ee
        = (CPUSimulator.init tasks np ne ps pe es ee th).eff_cores from rfl, h0]
    rfl
  have haff := Affinity_reach hpn hen rfl rfl
    (coreTasks_mkCores "P" "P" np ps pe) (coreTasks_mkCores "E" "E" ne es ee) n
  have hth := reach_threshold (CPUSimulator.init tasks np ne ps pe es ee th) n
  rw [show (CPUSimulator.init tasks np ne ps pe es ee th).threshold = th from rfl] at hth
  obtain ⟨_, _, h3, h4⟩ := haff
  rw [hth] at h3 h4
  exact ⟨h3, h4⟩

/-- Witness for C1: with an Efficiency pool present, dispatch on a concrete
state fills the Performance core only from the Performance queue. -/
theorem C1_affinity_and_fallback_witness :
    (CPUSimulator.init [("A", (5:ℚ))] 1 1 (3/2) (133/100) 1 1 2).eff_cores ≠ [] ∧
      (CPUSimulator.init [("A", (5:ℚ))] 1 1 (3/2) (133/100) 1 1 2).assign_to_cores.perf_cores
        = (assignIdle (CPUSimulator.init [("A", (5:ℚ))] 1 1 (3/2) (133/100) 1 1 2).perf_cores
            (CPUSimulator.init [("A", (5:ℚ))] 1 1 (3/2) (133/100) 1 1 2).wait_queue_perf).1 := by
  have hne : (CPUSimulator.init [("A", (5:ℚ))] 1 1 (3/2) (133/100) 1 1 2).eff_cores ≠ [] := by
    simp [CPUSimulator.init, mkCores]
  exact ⟨hne,
    ((C1_affinity_and_fallback [("A", 5)] 1 1 (3/2) (133/100) 1 1 2
      (by decide) (by decide)).1 _ hne).1⟩

/-- C7 counterexample: a task constructed with difficulty -1 starts a run
with `remaining = -1 < 0`, so the invariant `0 ≤ remaining` fails as soon
as any numeric difficulty is accepted. -/
theorem C7_negative_difficulty_cx :
    ¬ TasksOK (reach (CPUSimulator.init [("T", -1)] 1 1 (3/2) (133/100) 1 1 2) 0).wait_queue_eff := by
  intro hok
  have hq : (reach (CPUSimulator.init [("T", -1)] 1 1 (3/2) (133/100) 1 1 2) 0).wait_queue_eff
      = [{ name := "T", difficulty := -1, remaining := -1 }] := by
    with_unfolding_all rfl
  have hm := hok { name := "T", difficulty := -1, remaining := -1 }
    (by rw [hq]; exact List.mem_singleton.mpr rfl)
  have : (0:ℚ) ≤ -1 := hm.1
  norm_num at this

/-- C7 amended: for runs whose initial tasks all have non-negative
difficulty (and non-negative core speeds, as in every shipped
configuration), at every reachable point every task — queued, running or
completed — satisfies `0 ≤ remaining ≤ difficulty`; `process` (the only
mutator) never increases a task's remaining, a returned (completed) task
has `remaining = 0`, and a task kept on a core has `remaining ≠ 0`, so a
task is complete exactly when its remaining reaches zero. -/
theorem C7_task_invariant (tasks : List (String × ℚ)) (np ne : Nat) (ps pe es ee th : ℚ)
    (hd : ∀ p ∈ tasks, 0 ≤ p.2) (hps : 0 ≤ ps) (hes : 0 ≤ es) :
    (∀ n,
      TasksOK (reach (CPUSimulator.init tasks np ne ps pe es ee th) n).wait_queue_perf ∧
        TasksOK (reach (CPUSimulator.init tasks np ne ps pe es ee th) n).wait_queue_eff ∧
        TasksOK (coreTasks (reach (CPUSimulator.init tasks np ne ps pe es ee th) n).perf_cores) ∧
        TasksOK (coreTasks (reach (CPUSimulator.init tasks np ne ps pe es ee th) n).eff_cores) ∧
        TasksOK (reach (CPUSimulator.init tasks np ne ps pe es ee th) n).completed_tasks) ∧
      (∀ (c : Core) (t t' : Task), c.task = some t → 0 ≤ c.speed → 0 ≤ t.remaining →
        (c.process.1.task = some t' → t'.remaining ≤ t.remaining) ∧
          (c.process.2 = some t' → t'.remaining ≤ t.remaining)) ∧
      (∀ (c : Core) (t' : Task), c.process.2 = some t' → t'.remaining = 0) ∧
      (∀ (c : Core) (t' : Task), c.process.1.task = some t' → t'.remaining ≠ 0) := by
  refine ⟨?_, ?_, fun c t' h => Core.process_snd_remaining h, ?_⟩
  · intro n
    have h := Inv_reach tasks np ne ps pe es ee th hd hps hes n
    exact ⟨h.1, h.2.1, h.2.2.1, h.2.2.2.1, h.2.2.2.2.1⟩
  · intro c t t' hc hs hr
    constructor
    · intro h
      obtain ⟨t0, hc0, _, hrem, _⟩ := Core.process_fst_task h
      rw [hc0] at hc
      rw [Option.some_inj] at hc
      subst hc
      rw [hrem]
      exact sub_le_self _ (le_min hr hs)
    · intro h
      rw [Core.process_snd_remaining h]
      exact hr
  · intro c t' h
    obtain ⟨t, _, _, hrem, hlt⟩ := Core.process_fst_task h
    rw [hrem, min_eq_right (le_of_lt hlt)]
    exact sub_ne_zero.mpr (ne_of_gt hlt)

/-- Witness for C7: the bounds hold for the performance queue after two
steps of a concrete run. -/
theorem C7_task_invariant_witness :
    (∀ p ∈ [("A", (5:ℚ))], 0 ≤ p.2) ∧
      TasksOK (reach (CPUSimulator.init [("A", (5:ℚ))] 1 1 (3/2) (133/100) 1 1 2) 2).wait_queue_perf := by
  have hd : ∀ p ∈ [("A", (5:ℚ))], 0 ≤ p.2 := by
    intro p hp
    rw [List.mem_singleton.mp hp]
    norm_num
  exact ⟨hd, ((C7_task_invariant [("A", 5)] 1 1 (3/2) (133/100) 1 1 2 hd
    (by norm_num) (by norm_num)).1 2).1⟩

/-- C8 counterexample: a task accepted at construction with difficulty -1
makes the Efficiency core's `energy_used` drop from 0 to -1 in the first
cycle, so the accumulator is not monotone over all accepted task lists. -/
theorem C8_energy_decrease_cx :
    (reach (CPUSimulator.init [("T", -1)] 0 1 (3/2) (133/100) 1 1 2) 0).eff_cores.map
        Core.energy_used = [0] ∧
      (reach (CPUSimulator.init [("T", -1)] 0 1 (3/2) (133/100) 1 1 2) 1).eff_cores.map
        Core.energy_used = [-1] ∧
      ¬ ((0:ℚ) ≤ -1) := by
  refine ⟨by with_unfolding_all rfl, by with_unfolding_all rfl, by norm_num⟩

/-- C8 amended: for runs whose initial tasks all have non-negative
difficulty and whose core speeds and energy multipliers are non-negative
(as in every shipped configuration), every core's `energy_used` is
non-decreasing from each reachable state to the next, and `process` on an
idle core leaves `energy_used` unchanged. -/
theorem C8_energy_monotone (tasks : List (String × ℚ)) (np ne : Nat) (ps pe es ee th : ℚ)
    (hd : ∀ p ∈ tasks, 0 ≤ p.2) (hps : 0 ≤ ps) (hpe : 0 ≤ pe)
    (hes : 0 ≤ es) (hee : 0 ≤ ee) :
    (∀ n,
      List.Forall₂ (fun a b => a ≤ b)
          ((reach (CPUSimulator.init tasks np ne ps pe es ee th) n).perf_cores.map
            Core.energy_used)
          ((reach (CPUSimulator.init tasks np ne ps pe es ee th) (n + 1)).perf_cores.map
            Core.energy_used) ∧
        List.Forall₂ (fun a b => a ≤ b)
          ((reach (CPUSimulator.init tasks np ne ps pe es ee th) n).eff_cores.map
            Core.energy_used)
          ((reach (CPUSimulator.init tasks np ne ps pe es ee th) (n + 1)).eff_cores.map
            Core.energy_used)) ∧
      (∀ c : Core, c.task = none → c.process.1.energy_used = c.energy_used) := by
  refine ⟨?_, fun c hc => by rw [Core.process_none hc]⟩
  intro n
  have hInv := Inv_reach tasks np ne ps pe es ee th hd hps hes n
  have hM := MultOK_reach tasks np ne ps pe es ee th hpe hee n
  have hstep : reach (CPUSimulator.init tasks np ne ps pe es ee th) (n + 1)
      = simStep (reach (CPUSimulator.init tasks np ne ps pe es ee th) n) := by
    rw [reach, reach, Function.iterate_succ_apply']
  rw [hstep]
  exact energy_mono_simStep hInv hM

/-- Witness for C8: energy of the performance core is non-decreasing over
the first step of a concrete run. -/
theorem C8_energy_monotone_witness :
    (∀ p ∈ [("A", (5:ℚ))], 0 ≤ p.2) ∧
      List.Forall₂ (fun a b => a ≤ b)
        ((reach (CPUSimulator.init [("A", (5:ℚ))] 1 1 (3/2) (133/100) 1 1 2) 0).perf_cores.map
          Core.energy_used)
        ((reach (CPUSimulator.init [("A", (5:ℚ))] 1 1 (3/2) (133/100) 1 1 2) 1).perf_cores.map
          Core.energy_used) := by
  have hd : ∀ p ∈ [("A", (5:ℚ))], 0 ≤ p.2 := by
    intro p hp
    rw [List.mem_singleton.mp hp]
    norm_num
  exact ⟨hd, ((C8_energy_monotone [("A", 5)] 1 1 (3/2) (133/100) 1 1 2 hd
    (by norm_num) (by norm_num) (by norm_num) (by norm_num)).1 0).1⟩

theorem init_total (tasks : List (String × ℚ)) (np ne : Nat) (ps pe es ee th : ℚ) :
    (CPUSimulator.init tasks np ne ps pe es ee th).assign_tasks.wait_queue_perf.length
      + (CPUSimulator.init tasks np ne ps pe es ee th).assign_tasks.wait_queue_eff.length
      = tasks.length := by
  rw [assign_tasks_wqp, assign_tasks_wqe]
  simp only [List.length_append]
  rw [show (CPUSimulator.init tasks np ne ps pe es ee th).wait_queue_perf = [] from rfl,
    show (CPUSimulator.init tasks np ne ps pe es ee th).wait_queue_eff = [] from rfl]
  simp only [List.length_nil, Nat.zero_add]
  rw [filter_length_split]
  rw [show (CPUSimulator.init tasks np ne ps pe es ee th).tasks
    = tasks.map (fun p => Task.init p.1 p.2) from rfl, List.length_map]

/-- C5 counterexample: on the empty task list `run_for_max_cycles` divides
by zero computing the completion rate (Python raises `ZeroDivisionError`,
modelled as `none`), so the bounded run is not total on every task list. -/
theorem C5_empty_tasks_cx :
    (CPUSimulator.init [] 1 1 (3/2) (133/100) 1 1 2).run_for_max_cycles 5 = none := by
  with_unfolding_all rfl

/-- C5 amended: for every configuration and every *non-empty* task list the
bounded run returns normally; it stops by `maxCycles` (the cycle counter in
the result never exceeds the bound), and the result reports the completion
rate as a percentage `completedCount / totalCount * 100`, the cycles used,
the energy used, and whether the run fully drained
(`fully_completed ↔ completedCount = totalCount`). -/
theorem C5_bounded_run_total (tasks : List (String × ℚ)) (np ne : Nat)
    (ps pe es ee th : ℚ) (h : tasks ≠ []) (mc : Nat) :
    (CPUSimulator.init tasks np ne ps pe es ee th).run_for_max_cycles mc ≠ none ∧
      ∀ s' r, (CPUSimulator.init tasks np ne ps pe es ee th).run_for_max_cycles mc
          = some (s', r) →
        r.cycles_used = s'.cycle ∧ r.cycles_used ≤ mc ∧ r.max_cycles = mc ∧
          r.tasks_completed = s'.completed_tasks.length ∧ r.total_tasks = tasks.length ∧
          r.completion_rate = (r.tasks_completed : ℚ) / (r.total_tasks : ℚ) * 100 ∧
          r.energy_used = s'.energyOfCores ∧
          (r.fully_completed = true ↔ r.tasks_completed = r.total_tasks) := by
  have hlen : tasks.length ≠ 0 := by
    cases tasks with
    | nil => exact absurd rfl h
    | cons a l => simp
  have htot := init_total tasks np ne ps pe es ee th
  have hne : ¬ ((CPUSimulator.init tasks np ne ps pe es ee th).assign_tasks.wait_queue_perf.length
      + (CPUSimulator.init tasks np ne ps pe es ee th).assign_tasks.wait_queue_eff.length = 0) := by
    rw [htot]
    exact hlen
  have hc0 : (CPUSimulator.init tasks np ne ps pe es ee th).assign_tasks.completed_tasks
      = [] := rfl
  have hbag : Multiset.card
      (activeBag (CPUSimulator.init tasks np ne ps pe es ee th).assign_tasks)
      = tasks.length := by
    have hcp : coreTasks (CPUSimulator.init tasks np ne ps pe es ee th).assign_tasks.perf_cores
        = [] := by
      rw [assign_tasks_perf_cores]
      exact coreTasks_mkCores "P" "P" np ps pe
    have hce : coreTasks (CPUSimulator.init tasks np ne ps pe es ee th).assign_tasks.eff_cores
        = [] := by
      rw [assign_tasks_eff_cores]
      exact coreTasks_mkCores "E" "E" ne es ee
    simp only [activeBag, hcp, hce, Multiset.card_add, Multiset.coe_card]
    simpa using htot
  constructor
  · intro hnone
    simp only [CPUSimulator.run_for_max_cycles] at hnone
    rw [if_neg hne] at hnone
    exact absurd hnone (by simp)
  · intro s' r heq
    simp only [CPUSimulator.run_for_max_cycles] at heq
    rw [if_neg hne] at heq
    rw [Option.some_inj, Prod.mk.injEq] at heq
    obtain ⟨hs', hr⟩ := heq
    subst hs'
    subst hr
    have hcnt := @boundedLoop_count
      ((CPUSimulator.init tasks np ne ps pe es ee th).assign_tasks.wait_queue_perf.length
        + (CPUSimulator.init tasks np ne ps pe es ee th).assign_tasks.wait_queue_eff.length)
      mc mc ((CPUSimulator.init tasks np ne ps pe es ee th).assign_tasks)
    rw [hc0, hbag, List.length_nil] at hcnt
    refine ⟨rfl, ?_, rfl, rfl, htot, rfl, rfl, ?_⟩
    · exact boundedLoop_cycle_le mc _
        (by rw [show (CPUSimulator.init tasks np ne ps pe es ee th).assign_tasks.cycle = 0
            from rfl]
            exact Nat.zero_le mc)
    · dsimp only
      rw [decide_eq_true_eq]
      omega

/-- Witness for C5 at the concrete three-task scenario with a bound of
three cycles. -/
theorem C5_bounded_run_total_witness :
    ([("A", (5:ℚ)), ("B", 2), ("C", 3)] : List (String × ℚ)) ≠ [] ∧
      (CPUSimulator.init [("A", (5:ℚ)), ("B", 2), ("C", 3)] 1 1 (3/2) (133/100) 1 1
          2).run_for_max_cycles 3 ≠ none := by
  have h : ([("A", (5:ℚ)), ("B", 2), ("C", 3)] : List (String × ℚ)) ≠ [] := by simp
  exact ⟨h,
    (C5_bounded_run_total [("A", 5), ("B", 2), ("C", 3)] 1 1 (3/2) (133/100) 1 1 2 h 3).1⟩

/-- C6 counterexample: with a configured performance speed of 3 the
estimator still divides by the hardcoded average speed 1.5, so it does not
use the configured speeds as the claim states (it answers 4 where the
claim's formula gives 2). -/
theorem C6_configured_speed_cx :
    ((CPUSimulator.init [("T", 5)] 1 0 3 1 1 1 2).assign_tasks).estimate_remaining_cycles
        = some 4 ∧
      estimateRemainingCyclesSpec
          ((CPUSimulator.init [("T", 5)] 1 0 3 1 1 1 2).assign_tasks) 3 1 = some 2 ∧
      ((CPUSimulator.init [("T", 5)] 1 0 3 1 1 1 2).assign_tasks).estimate_remaining_cycles
        ≠ estimateRemainingCyclesSpec
            ((CPUSimulator.init [("T", 5)] 1 0 3 1 1 1 2).assign_tasks) 3 1 := by
  have h1 : ((CPUSimulator.init [("T", 5)] 1 0 3 1 1 1 2).assign_tasks).estimate_remaining_cycles
      = some 4 := by with_unfolding_all rfl
  have h2 : estimateRemainingCyclesSpec
      ((CPUSimulator.init [("T", 5)] 1 0 3 1 1 1 2).assign_tasks) 3 1 = some 2 := by
    with_unfolding_all rfl
  refine ⟨h1, h2, ?_⟩
  intro h
  rw [h1, h2] at h
  exact absurd h (by decide)

/-- C6 amended: the estimator sums the remaining work of all queued and
in-flight tasks, divides by the average speed computed from the *hardcoded*
constants 1.5 and 1.0 (not the configured speeds), truncates and adds 1,
and returns infinity (`none`) exactly when there are no cores. -/
theorem C6_estimate_hardcoded (s : CPUSimulator) :
    (s.perf_cores.length + s.eff_cores.length = 0 → s.estimate_remaining_cycles = none) ∧
    (s.perf_cores.length + s.eff_cores.length ≠ 0 →
      s.estimate_remaining_cycles
        = some (pyInt ((Multiset.map Task.remaining (activeBag s)).sum
            / (((s.perf_cores.length : ℚ) * (3/2) + (s.eff_cores.length : ℚ) * 1)
                / ((s.perf_cores.length + s.eff_cores.length : Nat) : ℚ))) + 1)) ∧
    s.estimate_remaining_cycles = estimateRemainingCyclesSpec s (3/2) 1 := by
  refine ⟨?_, ?_, rfl⟩
  · intro h
    simp only [CPUSimulator.estimate_remaining_cycles, h, if_pos]
  · intro h
    simp only [CPUSimulator.estimate_remaining_cycles, h, if_neg, if_false]
    congr 2
    simp only [activeBag, Multiset.map_add, Multiset.sum_add, Multiset.map_coe,
      Multiset.sum_coe, List.map_append, List.sum_append, coreTasks, List.filterMap_append]
    ring_nf

/-- Witness for C6, evaluating the amended characterisation on a concrete
state with one performance core. -/
theorem C6_estimate_hardcoded_witness :
    (CPUSimulator.init [("T", (5:ℚ))] 1 0 3 1 1 1 2).assign_tasks.perf_cores.length
        + (CPUSimulator.init [("T", (5:ℚ))] 1 0 3 1 1 1 2).assign_tasks.eff_cores.length ≠ 0 ∧
      (CPUSimulator.init [("T", (5:ℚ))] 1 0 3 1 1 1 2).assign_tasks.estimate_remaining_cycles
        = some (pyInt ((Multiset.map Task.remaining
              (activeBag (CPUSimulator.init [("T", (5:ℚ))] 1 0 3 1 1 1 2).assign_tasks)).sum
            / ((((CPUSimulator.init [("T", (5:ℚ))] 1 0 3 1 1 1
                      2).assign_tasks.perf_cores.length : ℚ) * (3/2)
                + ((CPUSimulator.init [("T", (5:ℚ))] 1 0 3 1 1 1
                      2).assign_tasks.eff_cores.length : ℚ) * 1)
              / (((CPUSimulator.init [("T", (5:ℚ))] 1 0 3 1 1 1
                      2).assign_tasks.perf_cores.length
                  + (CPUSimulator.init [("T", (5:ℚ))] 1 0 3 1 1 1
                      2).assign_tasks.eff_cores.length : Nat) : ℚ))) + 1) := by
  have hne : (CPUSimulator.init [("T", (5:ℚ))] 1 0 3 1 1 1 2).assign_tasks.perf_cores.length
      + (CPUSimulator.init [("T", (5:ℚ))] 1 0 3 1 1 1 2).assign_tasks.eff_cores.length ≠ 0 := by
    have h1 : (CPUSimulator.init [("T", (5:ℚ))] 1 0 3 1 1 1 2).assign_tasks.perf_cores.length
        + (CPUSimulator.init [("T", (5:ℚ))] 1 0 3 1 1 1 2).assign_tasks.eff_cores.length = 1 := by
      with_unfolding_all rfl
    omega
  exact ⟨hne, (C6_estimate_hardcoded _).2.1 hne⟩

end CPUSim
